import Mathlib

set_option linter.unusedVariables false

/- Verification of the BFS block allocator
   (src/add-ons/kernel/file_systems/bfs/BlockAllocator.cpp).

   The block bitmap of one allocation group is modelled as a function from
   bit index to Bool (true = allocated).  This is the flattened view of the
   32-bit chunks that AllocationBlock manipulates: the chunk loops in
   AllocationBlock::Allocate and AllocationBlock::Free set, respectively
   clear, exactly the bits in [start, start + numBlocks) of the bound
   bitmap block, and AllocationGroup::Allocate / AllocationGroup::Free
   iterate those loops across consecutive bitmap blocks, covering exactly
   the bits [start, start + length) of the group.  int32 fields are
   modelled as Int; uint16 and uint32 values as Nat, with an explicit
   % 2 ^ 16 at the points where the source narrows an int32 to uint16. -/

abbrev Bitmap := Nat → Bool

/-- Combined effect on a group bitmap of the AllocationBlock::Allocate
calls issued by AllocationGroup::Allocate: bits [start, start + len)
become set. -/
def setRange (bm : Bitmap) (start len : Nat) : Bitmap :=
  fun i => if start ≤ i ∧ i < start + len then true else bm i

/-- Combined effect on a group bitmap of the AllocationBlock::Free calls
issued by AllocationGroup::Free: bits [start, start + len) become clear. -/
def clearRange (bm : Bitmap) (start len : Nat) : Bitmap :=
  fun i => if start ≤ i ∧ i < start + len then false else bm i

/-- Number of unset (free) bits among the first n bits of a bitmap. -/
def countFree (bm : Bitmap) (n : Nat) : Nat :=
  ((Finset.range n).filter (fun i => bm i = false)).card

/-- AllocationBlock: a cached view of one bitmap block.  fNumBits is the
number of valid bits of the block, chunk is the 32-bit word array the
block bitmap is accessed through. -/
structure AllocationBlock where
  fNumBits : Nat
  chunk : Nat → Nat

/-- AllocationBlock::SetTo / SetToWritable: the number of valid bits of
bitmap block number (block) of a group with (groupBits) bits, where
bitsPerBlock is BlockSize() << 3.  The last block of a group may cover
fewer bits than a full block. -/
def setToNumBits (bitsPerBlock groupBits block : Nat) : Nat :=
  if (block + 1) * bitsPerBlock > groupBits then groupBits % bitsPerBlock
  else bitsPerBlock

/-- AllocationBlock::IsUsed: a bit index beyond fNumBits reports as used;
otherwise the bit is looked up in its 32-bit chunk. -/
def AllocationBlock.IsUsed (ab : AllocationBlock) (block : Nat) : Bool :=
  if block > ab.fNumBits then true
  else (ab.chunk (block >>> 5)).testBit (block % 32)

/-- AllocationGroup record; field types follow the C++ declaration
(uint32 fNumBits, fNumBitmapBlocks; int32 fStart, fFirstFree, fFreeBits,
fLargestStart, fLargestLength; bool fLargestValid). -/
structure AllocationGroup where
  fNumBits : Nat
  fNumBitmapBlocks : Nat
  fStart : Int
  fFirstFree : Int
  fFreeBits : Int
  fLargestStart : Int
  fLargestLength : Int
  fLargestValid : Bool
deriving DecidableEq

/-- The AllocationGroup() constructor: fFirstFree = -1, fFreeBits = 0,
fLargestValid = false; the remaining fields are set by the initializers. -/
instance : Inhabited AllocationGroup :=
  ⟨⟨0, 0, 0, -1, 0, 0, 0, false⟩⟩

/-- AllocationGroup::AddFreeRange, used while scanning an existing volume
at mount time. -/
def AllocationGroup.AddFreeRange (g : AllocationGroup) (start blocks : Int) :
    AllocationGroup :=
  let g1 := if g.fFirstFree = -1 then { g with fFirstFree := start } else g
  let g2 :=
    if g1.fLargestValid = false ∨ g1.fLargestLength < blocks then
      { g1 with fLargestStart := start, fLargestLength := blocks,
                fLargestValid := true }
    else g1
  { g2 with fFreeBits := g2.fFreeBits + blocks }

/-- AllocationGroup::Allocate: updates fFirstFree, fFreeBits and the
largest-free hint exactly as the source does, then sets the bits of the
run in the bitmap. -/
def AllocationGroup.Allocate (g : AllocationGroup) (bm : Bitmap)
    (start length : Nat) : AllocationGroup × Bitmap :=
  let s : Int := start
  let g1 := { g with
    fFirstFree := if s = g.fFirstFree then s + length else g.fFirstFree
    fFreeBits := g.fFreeBits - length }
  let g2 :=
    if g1.fLargestValid = true then
      if g1.fLargestStart = s then
        -- cut from start
        let gc := { g1 with fLargestStart := g1.fLargestStart + length
                            fLargestLength := g1.fLargestLength - length }
        if gc.fLargestLength < gc.fLargestStart
            ∨ gc.fLargestLength
                < (gc.fNumBits : Int) - (gc.fLargestStart + gc.fLargestLength) then
          { gc with fLargestValid := false }
        else gc
      else if g1.fLargestStart < s ∧ s < g1.fLargestStart + g1.fLargestLength then
        -- cut from end
        let gc := { g1 with fLargestLength := s - g1.fLargestStart }
        if gc.fLargestLength < gc.fLargestStart
            ∨ gc.fLargestLength
                < (gc.fNumBits : Int) - (gc.fLargestStart + gc.fLargestLength) then
          { gc with fLargestValid := false }
        else gc
      else g1
    else g1
  (g2, setRange bm start length)

/-- AllocationGroup::Free: updates fFirstFree, fFreeBits and the
largest-free hint exactly as the source does, then clears the bits of the
run in the bitmap. -/
def AllocationGroup.Free (g : AllocationGroup) (bm : Bitmap)
    (start length : Nat) : AllocationGroup × Bitmap :=
  let s : Int := start
  let g1 := { g with
    fFirstFree := if g.fFirstFree > s then s else g.fFirstFree
    fFreeBits := g.fFreeBits + length }
  let g2 :=
    if g1.fLargestValid = true ∧
        (s + length = g1.fLargestStart
          ∨ g1.fLargestStart + g1.fLargestLength = s
          ∨ (s < g1.fLargestStart ∧ g1.fLargestStart > g1.fLargestLength)
          ∨ (s > g1.fLargestStart
              ∧ (g1.fNumBits : Int) - (g1.fLargestStart + g1.fLargestLength)
                  > g1.fLargestLength)) then
      { g1 with fLargestValid := false }
    else g1
  (g2, clearRange bm start length)

/-- The allocation group record set up by
BlockAllocator::InitializeAndClearBitmap for a group of (numBits) bits
starting at bitmap block (startOff): everything free and the largest-free
hint covering the whole group. -/
def initGroupFormat (numBits numBitmapBlocks : Nat) (startOff : Int) :
    AllocationGroup :=
  { fNumBits := numBits, fNumBitmapBlocks := numBitmapBlocks,
    fStart := startOff, fFirstFree := 0, fFreeBits := numBits,
    fLargestStart := 0, fLargestLength := numBits, fLargestValid := true }

/-- The on-disk bitmap right after InitializeAndClearBitmap zeroed it. -/
def clearedBitmap : Bitmap := fun _ => false

/-- The freeBitCount invariant: fFreeBits equals the number of unset bits
of the group region of the bitmap. -/
def freeBitsInv (g : AllocationGroup) (bm : Bitmap) : Prop :=
  g.fFreeBits = (countFree bm g.fNumBits : Int)

instance (g : AllocationGroup) (bm : Bitmap) : Decidable (freeBitsInv g bm) := by
  unfold freeBitsInv
  infer_instance

/-- fFirstFree is a lower bound on the first free bit: every bit strictly
below it is allocated. -/
def firstFreeLowerBound (g : AllocationGroup) (bm : Bitmap) : Prop :=
  ∀ i : Nat, (i : Int) < g.fFirstFree → bm i = true

lemma countFree_le (bm : Bitmap) (n : Nat) : countFree bm n ≤ n := by
  calc countFree bm n ≤ (Finset.range n).card := Finset.card_filter_le _ _
    _ = n := Finset.card_range n

lemma countFree_all_free (n : Nat) : countFree clearedBitmap n = n := by
  unfold countFree clearedBitmap
  rw [Finset.filter_true_of_mem (fun i _ => rfl), Finset.card_range]

lemma countFree_setRange (bm : Bitmap) (s l n : Nat)
    (hfree : ∀ i, s ≤ i → i < s + l → bm i = false) (hle : s + l ≤ n) :
    countFree (setRange bm s l) n + l = countFree bm n := by
  have hsub : Finset.Ico s (s + l)
      ⊆ (Finset.range n).filter (fun i => bm i = false) := by
    intro i hi
    simp only [Finset.mem_Ico] at hi
    simp only [Finset.mem_filter, Finset.mem_range]
    exact ⟨lt_of_lt_of_le hi.2 hle, hfree i hi.1 hi.2⟩
  have hset : (Finset.range n).filter (fun i => setRange bm s l i = false)
      = ((Finset.range n).filter (fun i => bm i = false)) \ Finset.Ico s (s + l) := by
    ext i
    simp only [Finset.mem_filter, Finset.mem_range, Finset.mem_sdiff,
      Finset.mem_Ico, setRange]
    by_cases h : s ≤ i ∧ i < s + l
    · simp [h]
    · simp [h]
  have hcard : l ≤ ((Finset.range n).filter (fun i => bm i = false)).card := by
    have := Finset.card_le_card hsub
    simpa [Nat.card_Ico] using this
  unfold countFree
  rw [hset, Finset.card_sdiff hsub, Nat.card_Ico]
  omega

lemma countFree_clearRange (bm : Bitmap) (s l n : Nat)
    (hused : ∀ i, s ≤ i → i < s + l → bm i = true) (hle : s + l ≤ n) :
    countFree (clearRange bm s l) n = countFree bm n + l := by
  have hdisj : Disjoint ((Finset.range n).filter (fun i => bm i = false))
      (Finset.Ico s (s + l)) := by
    rw [Finset.disjoint_left]
    intro i hi hico
    simp only [Finset.mem_filter, Finset.mem_range] at hi
    simp only [Finset.mem_Ico] at hico
    have := hused i hico.1 hico.2
    simp [this] at hi
  have hset : (Finset.range n).filter (fun i => clearRange bm s l i = false)
      = ((Finset.range n).filter (fun i => bm i = false)) ∪ Finset.Ico s (s + l) := by
    ext i
    simp only [Finset.mem_filter, Finset.mem_range, Finset.mem_union,
      Finset.mem_Ico, clearRange]
    by_cases h : s ≤ i ∧ i < s + l
    · simp [h, lt_of_lt_of_le h.2 hle]
    · simp [h]
  unfold countFree
  rw [hset, Finset.card_union_of_disjoint hdisj, Nat.card_Ico]
  omega

lemma Allocate_fst_fFreeBits (g : AllocationGroup) (bm : Bitmap)
    (start length : Nat) :
    (g.Allocate bm start length).1.fFreeBits = g.fFreeBits - length := by
  simp only [AllocationGroup.Allocate]
  split_ifs <;> rfl

lemma Allocate_fst_fNumBits (g : AllocationGroup) (bm : Bitmap)
    (start length : Nat) :
    (g.Allocate bm start length).1.fNumBits = g.fNumBits := by
  simp only [AllocationGroup.Allocate]
  split_ifs <;> rfl

lemma Allocate_fst_fFirstFree (g : AllocationGroup) (bm : Bitmap)
    (start length : Nat) :
    (g.Allocate bm start length).1.fFirstFree
      = if (start : Int) = g.fFirstFree then (start : Int) + length
        else g.fFirstFree := by
  simp only [AllocationGroup.Allocate]
  split_ifs <;> rfl

lemma Allocate_snd (g : AllocationGroup) (bm : Bitmap) (start length : Nat) :
    (g.Allocate bm start length).2 = setRange bm start length := by
  simp only [AllocationGroup.Allocate]

lemma Free_fst_fFreeBits (g : AllocationGroup) (bm : Bitmap)
    (start length : Nat) :
    (g.Free bm start length).1.fFreeBits = g.fFreeBits + length := by
  simp only [AllocationGroup.Free]
  split_ifs <;> rfl

lemma Free_fst_fNumBits (g : AllocationGroup) (bm : Bitmap)
    (start length : Nat) :
    (g.Free bm start length).1.fNumBits = g.fNumBits := by
  simp only [AllocationGroup.Free]
  split_ifs <;> rfl

lemma Free_fst_fFirstFree (g : AllocationGroup) (bm : Bitmap)
    (start length : Nat) :
    (g.Free bm start length).1.fFirstFree
      = if g.fFirstFree > (start : Int) then (start : Int)
        else g.fFirstFree := by
  simp only [AllocationGroup.Free]
  split_ifs <;> rfl

lemma Free_snd (g : AllocationGroup) (bm : Bitmap) (start length : Nat) :
    (g.Free bm start length).2 = clearRange bm start length := by
  simp only [AllocationGroup.Free]

/-- C1: for an allocation group, after format-time initialization and
after every allocate or free of a run of previously free (respectively
previously allocated) bits inside the group, fFreeBits equals the number
of unset bits of the group region of the bitmap and lies within
[0, fNumBits]. -/
theorem freeBitCount_invariant (numBits numBitmapBlocks : Nat) (startOff : Int)
    (g : AllocationGroup) (bm : Bitmap) (start length : Nat)
    (hle : start + length ≤ g.fNumBits)
    (hinv : freeBitsInv g bm) :
    (freeBitsInv (initGroupFormat numBits numBitmapBlocks startOff) clearedBitmap
      ∧ 0 ≤ (initGroupFormat numBits numBitmapBlocks startOff).fFreeBits
      ∧ (initGroupFormat numBits numBitmapBlocks startOff).fFreeBits ≤ (numBits : Int))
    ∧ ((∀ i, start ≤ i → i < start + length → bm i = false) →
        freeBitsInv (g.Allocate bm start length).1 (g.Allocate bm start length).2
        ∧ 0 ≤ (g.Allocate bm start length).1.fFreeBits
        ∧ (g.Allocate bm start length).1.fFreeBits ≤ (g.fNumBits : Int))
    ∧ ((∀ i, start ≤ i → i < start + length → bm i = true) →
        freeBitsInv (g.Free bm start length).1 (g.Free bm start length).2
        ∧ 0 ≤ (g.Free bm start length).1.fFreeBits
        ∧ (g.Free bm start length).1.fFreeBits ≤ (g.fNumBits : Int)) := by
  refine ⟨?_, ?_, ?_⟩
  · refine ⟨?_, ?_, ?_⟩
    · show (numBits : Int) = (countFree clearedBitmap numBits : Int)
      rw [countFree_all_free]
    · show (0 : Int) ≤ (numBits : Int)
      exact Int.ofNat_nonneg _
    · exact le_refl _
  · intro hfree
    have hcount := countFree_setRange bm start length g.fNumBits hfree hle
    have hnew : freeBitsInv (g.Allocate bm start length).1
        (g.Allocate bm start length).2 := by
      unfold freeBitsInv
      rw [Allocate_fst_fFreeBits, Allocate_fst_fNumBits, Allocate_snd, hinv]
      unfold freeBitsInv at hinv
      omega
    refine ⟨hnew, ?_, ?_⟩
    · unfold freeBitsInv at hnew
      omega
    · unfold freeBitsInv at hnew
      rw [Allocate_fst_fNumBits] at hnew
      have h1 := countFree_le (g.Allocate bm start length).2 g.fNumBits
      omega
  · intro hused
    have hcount := countFree_clearRange bm start length g.fNumBits hused hle
    have hnew : freeBitsInv (g.Free bm start length).1
        (g.Free bm start length).2 := by
      unfold freeBitsInv
      rw [Free_fst_fFreeBits, Free_fst_fNumBits, Free_snd, hinv, hcount]
      push_cast
      ring
    refine ⟨hnew, ?_, ?_⟩
    · unfold freeBitsInv at hnew
      omega
    · unfold freeBitsInv at hnew
      rw [Free_fst_fNumBits] at hnew
      have h1 := countFree_le (g.Free bm start length).2 g.fNumBits
      omega

/-- Concrete group used in several witnesses: 4 bits, all free. -/
def witnessGroup : AllocationGroup :=
  { fNumBits := 4, fNumBitmapBlocks := 1, fStart := 1, fFirstFree := 0,
    fFreeBits := 4, fLargestStart := 0, fLargestLength := 4,
    fLargestValid := true }

theorem freeBitCount_invariant_witness :
    freeBitsInv (witnessGroup.Allocate clearedBitmap 1 2).1
      (witnessGroup.Allocate clearedBitmap 1 2).2 := by
  have h := freeBitCount_invariant 4 1 1 witnessGroup clearedBitmap 1 2
    (by decide) (by decide)
  exact (h.2.1 (fun i _ _ => rfl)).1

/-- C6: AllocationGroup::Allocate sets exactly the bits of the run, and
freeing the identical run immediately afterwards restores every bitmap
bit to the value it had before the allocation (the run of a successful
allocation consists of previously free bits). -/
theorem allocate_sets_free_clears (g : AllocationGroup) (bm : Bitmap)
    (start length : Nat)
    (hfree : ∀ i, start ≤ i → i < start + length → bm i = false) :
    (∀ i, (g.Allocate bm start length).2 i
        = if start ≤ i ∧ i < start + length then true else bm i)
    ∧ (∀ i, ((g.Allocate bm start length).1.Free
          (g.Allocate bm start length).2 start length).2 i = bm i) := by
  constructor
  · intro i
    rw [Allocate_snd]
    rfl
  · intro i
    rw [Free_snd, Allocate_snd]
    unfold clearRange setRange
    by_cases h : start ≤ i ∧ i < start + length
    · simp [h, hfree i h.1 h.2]
    · simp [h]

theorem allocate_sets_free_clears_witness :
    ((witnessGroup.Allocate clearedBitmap 1 2).1.Free
        (witnessGroup.Allocate clearedBitmap 1 2).2 1 2).2 1 = clearedBitmap 1 :=
  (allocate_sets_free_clears witnessGroup clearedBitmap 1 2 (fun i _ _ => rfl)).2 1

/-- C7: fFirstFree only advances (to start + length) when the allocated
run begins exactly at it, only retreats (to the freed start) when a free
begins strictly below it, and being a lower bound on the first free bit
(everything strictly below it is allocated) is preserved by both
AllocationGroup::Allocate and AllocationGroup::Free. -/
theorem firstFree_lower_bound_invariant (g : AllocationGroup) (bm : Bitmap)
    (start length : Nat) (hlb : firstFreeLowerBound g bm) :
    ((g.Allocate bm start length).1.fFirstFree
        = (if (start : Int) = g.fFirstFree then (start : Int) + length
           else g.fFirstFree))
    ∧ firstFreeLowerBound (g.Allocate bm start length).1
        (g.Allocate bm start length).2
    ∧ ((g.Free bm start length).1.fFirstFree
        = (if g.fFirstFree > (start : Int) then (start : Int)
           else g.fFirstFree))
    ∧ firstFreeLowerBound (g.Free bm start length).1
        (g.Free bm start length).2 := by
  refine ⟨Allocate_fst_fFirstFree g bm start length, ?_,
    Free_fst_fFirstFree g bm start length, ?_⟩
  · intro i hi
    rw [Allocate_fst_fFirstFree] at hi
    rw [Allocate_snd]
    unfold setRange
    by_cases hin : start ≤ i ∧ i < start + length
    · simp [hin]
    · rw [if_neg hin]
      by_cases hif : (start : Int) = g.fFirstFree
      · rw [if_pos hif] at hi
        have hi2 : i < start := by omega
        refine hlb i ?_
        rw [← hif]
        exact_mod_cast hi2
      · rw [if_neg hif] at hi
        exact hlb i hi
  · intro i hi
    rw [Free_fst_fFirstFree] at hi
    rw [Free_snd]
    unfold clearRange
    by_cases hif : g.fFirstFree > (start : Int)
    · rw [if_pos hif] at hi
      have hi2 : i < start := by exact_mod_cast hi
      rw [if_neg (by omega : ¬(start ≤ i ∧ i < start + length))]
      exact hlb i (lt_trans hi hif)
    · rw [if_neg hif] at hi
      have hi2 : (i : Int) < start := lt_of_lt_of_le hi (not_lt.mp hif)
      have hi3 : i < start := by exact_mod_cast hi2
      rw [if_neg (by omega : ¬(start ≤ i ∧ i < start + length))]
      exact hlb i hi

theorem firstFree_lower_bound_witness :
    firstFreeLowerBound (witnessGroup.Allocate clearedBitmap 0 2).1
      (witnessGroup.Allocate clearedBitmap 0 2).2 :=
  (firstFree_lower_bound_invariant witnessGroup clearedBitmap 0 2
    (by intro i hi; simp only [witnessGroup] at hi; omega)).2.1

/-- Group used to refute C8: 100 bits, all free, with a valid largest-free
hint covering the whole group. -/
def c8group : AllocationGroup :=
  { fNumBits := 100, fNumBitmapBlocks := 1, fStart := 1, fFirstFree := 0,
    fFreeBits := 100, fLargestStart := 0, fLargestLength := 100,
    fLargestValid := true }

/-- C8 counterexample: the allocated run [0, 10) overlaps the valid
largest free run [0, 100) of c8group, yet AllocationGroup::Allocate does
NOT invalidate the hint: it cheaply trims it to [10, 100) and keeps
fLargestValid = true. -/
theorem largest_hint_survives_overlap :
    (c8group.fLargestValid = true
      ∧ c8group.fLargestStart < (0 : Int) + 10
      ∧ (0 : Int) < c8group.fLargestStart + c8group.fLargestLength)
    ∧ ((c8group.Allocate clearedBitmap 0 10).1.fLargestValid = true
      ∧ (c8group.Allocate clearedBitmap 0 10).1.fLargestStart = 10
      ∧ (c8group.Allocate clearedBitmap 0 10).1.fLargestLength = 90) := by
  decide

/-- C8 amended: when the allocated run starts at the start of the valid
largest-free run, or starts strictly inside it, AllocationGroup::Allocate
trims the hint (from the start, respectively from the end) and clears
fLargestValid only when the trimmed remainder is shorter than the space
before it or the space after it in the group; a run that only touches the
hint, or is disjoint from it, leaves the hint valid and unchanged. -/
theorem largest_hint_allocate_update (g : AllocationGroup) (bm : Bitmap)
    (start length : Nat) (hv : g.fLargestValid = true) :
    (g.fLargestStart = (start : Int) →
        (g.Allocate bm start length).1.fLargestStart = g.fLargestStart + length
        ∧ (g.Allocate bm start length).1.fLargestLength
            = g.fLargestLength - length
        ∧ ((g.Allocate bm start length).1.fLargestValid = false
            ↔ (g.fLargestLength - length < g.fLargestStart + length
               ∨ g.fLargestLength - length
                   < (g.fNumBits : Int) - (g.fLargestStart + g.fLargestLength))))
    ∧ (g.fLargestStart < (start : Int)
        ∧ (start : Int) < g.fLargestStart + g.fLargestLength →
        (g.Allocate bm start length).1.fLargestStart = g.fLargestStart
        ∧ (g.Allocate bm start length).1.fLargestLength
            = (start : Int) - g.fLargestStart
        ∧ ((g.Allocate bm start length).1.fLargestValid = false
            ↔ ((start : Int) - g.fLargestStart < g.fLargestStart
               ∨ (start : Int) - g.fLargestStart
                   < (g.fNumBits : Int) - (start : Int))))
    ∧ (g.fLargestStart ≠ (start : Int)
        ∧ ¬(g.fLargestStart < (start : Int)
            ∧ (start : Int) < g.fLargestStart + g.fLargestLength) →
        (g.Allocate bm start length).1.fLargestValid = true
        ∧ (g.Allocate bm start length).1.fLargestStart = g.fLargestStart
        ∧ (g.Allocate bm start length).1.fLargestLength = g.fLargestLength) := by
  refine ⟨?_, ?_, ?_⟩
  · intro hcase
    simp only [AllocationGroup.Allocate, hv, if_true]
    rw [if_pos hcase]
    split_ifs <;> refine ⟨rfl, rfl, ?_⟩ <;> simp <;> omega
  · intro hcase
    simp only [AllocationGroup.Allocate, hv, if_true]
    rw [if_neg (by omega : ¬g.fLargestStart = (start : Int)), if_pos hcase]
    split_ifs <;> refine ⟨rfl, rfl, ?_⟩ <;> simp <;> omega
  · intro hcase
    simp only [AllocationGroup.Allocate, hv, if_true]
    rw [if_neg hcase.1, if_neg hcase.2]
    exact ⟨rfl, rfl, rfl⟩

theorem largest_hint_allocate_update_witness :
    (c8group.Allocate clearedBitmap 0 10).1.fLargestStart = 10
      ∧ (c8group.Allocate clearedBitmap 0 10).1.fLargestLength = 90 := by
  have h := (largest_hint_allocate_update c8group clearedBitmap 0 10
    (by decide)).1 (by decide)
  exact ⟨by rw [h.1]; decide, by rw [h.2.1]; decide⟩

/-- C10: AllocationBlock::IsUsed reports any bit index strictly greater
than the number of valid bits of the bound bitmap block as used, so
scanning code never treats positions past the end of a short final bitmap
block as free space. -/
theorem isUsed_past_end (ab : AllocationBlock) (block : Nat)
    (h : block > ab.fNumBits) : ab.IsUsed block = true := by
  unfold AllocationBlock.IsUsed
  rw [if_pos h]

theorem isUsed_past_end_witness :
    9 > (8 : Nat) ∧ AllocationBlock.IsUsed ⟨8, fun _ => 0⟩ 9 = true :=
  ⟨by decide, isUsed_past_end ⟨8, fun _ => 0⟩ 9 (by decide)⟩

/-- Return codes used by the allocator. -/
inductive Status where
  | B_OK
  | B_BAD_VALUE
  | B_DEVICE_FULL
  | B_IO_ERROR
deriving DecidableEq

/-- block_run: int32 allocation_group, uint16 start, uint16 length. -/
structure block_run where
  allocation_group : Int
  start : Nat
  length : Nat
deriving DecidableEq

/-- BlockAllocator together with the volume state it reads: the per-group
bitmaps, the used-block counter of the super block, and the log run of
the volume (fVolume->Log()), whose end bounds the reserved prefix. -/
structure BlockAllocator where
  fNumGroups : Nat
  fGroups : List AllocationGroup
  bitmaps : Nat → Bitmap
  usedBlocks : Int
  logGroup : Int
  logStart : Nat
  logLength : Nat

/-- BlockAllocator::Free: validates the run against the group sizes,
rejects runs that overlap the reserved prefix (any group before the log
group, or an offset in the log group below logStart + logLength), then
delegates to AllocationGroup::Free and decrements the used-block count. -/
def BlockAllocator.Free (a : BlockAllocator) (run : block_run) :
    Status × BlockAllocator :=
  let group := run.allocation_group
  let start := run.start
  let length := run.length
  if group < 0 ∨ (a.fNumGroups : Int) ≤ group
      ∨ (a.fGroups.getD group.toNat default).fNumBits < start
      ∨ (a.fGroups.getD group.toNat default).fNumBits < start + length
      ∨ length = 0 then
    (Status.B_BAD_VALUE, a)
  else if group < a.logGroup
      ∨ (group = a.logGroup ∧ start < a.logStart + a.logLength) then
    (Status.B_BAD_VALUE, a)
  else
    let gi := group.toNat
    let res := (a.fGroups.getD gi default).Free (a.bitmaps gi) start length
    (Status.B_OK,
      { a with fGroups := a.fGroups.set gi res.1,
               bitmaps := fun j => if j = gi then res.2 else a.bitmaps j,
               usedBlocks := a.usedBlocks - length })

/-- C3: BlockAllocator::Free returns an invalid-argument error and leaves
the allocator (bitmaps, group hints and counts, used-block counter)
completely unchanged for every run overlapping the reserved prefix, i.e.
whose group precedes the log group or which lies in the log group with a
start offset below logStart + logLength. -/
theorem free_rejects_reserved (a : BlockAllocator) (run : block_run)
    (hres : run.allocation_group < a.logGroup
      ∨ (run.allocation_group = a.logGroup
          ∧ run.start < a.logStart + a.logLength)) :
    a.Free run = (Status.B_BAD_VALUE, a) := by
  simp only [BlockAllocator.Free]
  split_ifs with h1
  · rfl
  · rfl

/-- Allocator used by several witnesses: two 4-bit groups, the log run
occupying [0, 3) of group 0. -/
def witnessAllocator : BlockAllocator :=
  { fNumGroups := 2, fGroups := [witnessGroup, witnessGroup],
    bitmaps := fun _ => clearedBitmap, usedBlocks := 3,
    logGroup := 0, logStart := 0, logLength := 3 }

theorem free_rejects_reserved_witness :
    ((0 : Int) < witnessAllocator.logGroup
      ∨ ((0 : Int) = witnessAllocator.logGroup
          ∧ 2 < witnessAllocator.logStart + witnessAllocator.logLength))
    ∧ witnessAllocator.Free ⟨0, 2, 1⟩ = (Status.B_BAD_VALUE, witnessAllocator) :=
  ⟨by decide, free_rejects_reserved witnessAllocator ⟨0, 2, 1⟩ (by decide)⟩

/-- State of the bit scan of BlockAllocator::AllocateBlocks inside one
group (the local variables of the loop in lines 790-855). -/
structure ScanSt where
  currentStart : Int
  currentLength : Int
  groupLargestStart : Int
  groupLargestLength : Int
  bestGroup : Int
  bestStart : Int
  bestLength : Int
deriving DecidableEq

/-- How the per-group bit scan of AllocateBlocks ended: it either ran off
the end of the group, stopped because a run of at least (maximum) bits
was found, or skipped the rest of the group because no longer run can fit
there. -/
inductive ScanExit where
  | endOfGroup
  | foundMaximum
  | skippedRest
deriving DecidableEq

/-- Scanning one free bit (lines 807-819): start a new range when none is
open, then extend it by one. -/
def stepFree (st : ScanSt) (p : Nat) : ScanSt :=
  let s1 := if st.currentLength = 0 then { st with currentStart := (p : Int) }
    else st
  { s1 with currentLength := s1.currentLength + 1 }

/-- Scanning one used bit (lines 820-833): close the open range, updating
the best and group-largest candidates when it is longer. -/
def stepUsed (st : ScanSt) (gi : Int) : ScanSt :=
  if st.currentLength ≠ 0 then
    let sa := if st.bestLength < st.currentLength then
        { st with bestGroup := gi, bestStart := st.currentStart,
                  bestLength := st.currentLength }
      else st
    let sb := if sa.groupLargestLength < sa.currentLength then
        { sa with groupLargestStart := sa.currentStart,
                  groupLargestLength := sa.currentLength }
      else sa
    { sb with currentLength := 0 }
  else st

/-- The bit scan of AllocateBlocks (lines 797-855), flattened over the
bitmap blocks of the group: one step per group-relative bit, starting at
(currentBit), with fuel = fNumBits - currentBit.  Returns the final
state, the exit kind, and the final value of currentBit. -/
def scanGroup (bm : Bitmap) (numBits maximum : Nat) (gi : Int) :
    Nat → Nat → ScanSt → ScanSt × ScanExit × Nat
  | 0, p, s => (s, ScanExit.endOfGroup, p)
  | fuel + 1, p, s =>
    if bm p = false then
      -- free bit: extend (or start) the current range
      let s2 := stepFree s p
      if (maximum : Int) ≤ s2.currentLength then
        ({ s2 with bestGroup := gi, bestStart := s2.currentStart,
                   bestLength := s2.currentLength },
          ScanExit.foundMaximum, p)
      else scanGroup bm numBits maximum gi fuel (p + 1) s2
    else
      -- used bit: close the current range, maybe skip the rest
      let s1 := stepUsed s gi
      if (numBits : Int) - (p : Int) ≤ s1.groupLargestLength then
        (s1, ScanExit.skippedRest, p)
      else scanGroup bm numBits maximum gi fuel (p + 1) s1

/-- The fFirstFree bump of the start offset (lines 763-764), including
the int32 to uint16 narrowing of the uint16 local (start). -/
def bumpStart (g : AllocationGroup) (start : Nat) : Nat :=
  if (start : Int) < g.fFirstFree then g.fFirstFree.toNat % 65536 else start

/-- The updates performed after the bitmap-block loop of the scan (lines
857-867): when the scan ran to the end of the group, fold the still open
range into the best candidate and, when a group largest can be computed,
into the group-largest candidate. -/
def scanTail (gi numBits : Nat) (canFind : Bool)
    (r : ScanSt × ScanExit × Nat) : ScanSt :=
  if r.2.2 = numBits then
    let sa := if r.1.bestLength < r.1.currentLength then
        { r.1 with bestGroup := (gi : Int), bestStart := r.1.currentStart,
                   bestLength := r.1.currentLength }
      else r.1
    if canFind = true ∧ sa.groupLargestLength < sa.currentLength then
      { sa with groupLargestStart := sa.currentStart,
                groupLargestLength := sa.currentLength }
    else sa
  else r.1

/-- The refresh of the largest-free hint of the scanned group (lines
869-874). -/
def refreshGroup (g : AllocationGroup) (canFind : Bool) (st : ScanSt) :
    AllocationGroup :=
  if canFind = true ∧ g.fLargestValid = false ∧ 0 ≤ st.groupLargestLength then
    { g with fLargestStart := st.groupLargestStart,
             fLargestLength := st.groupLargestLength,
             fLargestValid := true }
  else g

/-- One iteration of the group loop of AllocateBlocks (lines 751-877) for
the group with index (gi): the full/out-of-range guard, the fFirstFree
bump of the start offset, the largest-free hint shortcut, the bit scan
with its tail updates, and the refresh of the largest-free hint of the
group.  Returns the possibly updated group, the updated best triple
(bestGroup, bestStart, bestLength) and whether the group loop breaks. -/
def processGroup (g : AllocationGroup) (bm : Bitmap) (maximum : Nat)
    (gi : Nat) (start : Nat) (bestGroup bestStart bestLength : Int) :
    AllocationGroup × (Int × Int × Int) × Bool :=
  if g.fNumBits ≤ start ∨ g.fFreeBits = 0 then
    (g, (bestGroup, bestStart, bestLength), false)
  else
    let start := bumpStart g start
    if g.fLargestValid = true ∧ g.fLargestLength < bestLength then
      (g, (bestGroup, bestStart, bestLength), false)
    else if g.fLargestValid = true ∧ (start : Int) ≤ g.fLargestStart then
      -- adopt the valid hint without scanning any bit
      if bestLength ≤ g.fLargestLength then
        (g, ((gi : Int), g.fLargestStart, g.fLargestLength),
          decide ((maximum : Int) ≤ g.fLargestLength))
      else
        (g, (bestGroup, bestStart, bestLength), false)
    else
      let s0 : ScanSt :=
        { currentStart := 0, currentLength := 0, groupLargestStart := -1,
          groupLargestLength := -1, bestGroup := bestGroup,
          bestStart := bestStart, bestLength := bestLength }
      let r := scanGroup bm g.fNumBits maximum (gi : Int)
        (g.fNumBits - start) start s0
      let canFind := decide (start = 0) && decide (r.2.1 ≠ ScanExit.foundMaximum)
      let st := scanTail gi g.fNumBits canFind r
      (refreshGroup g canFind st, (st.bestGroup, st.bestStart, st.bestLength),
        decide ((maximum : Int) ≤ st.bestLength))

/-- The group loop of AllocateBlocks: up to fNumGroups + 1 round-robin
iterations starting at the caller hint, with the start offset reset to 0
after the first iteration; hint refreshes performed by the scan are kept
in the group list. -/
def findBest (bitmaps : Nat → Bitmap) (numGroups maximum : Nat) :
    Nat → List AllocationGroup → Nat → Nat → Int × Int × Int →
    List AllocationGroup × (Int × Int × Int)
  | 0, groups, _, _, best => (groups, best)
  | fuel + 1, groups, groupIndex, start, best =>
    let gi := groupIndex % numGroups
    let r := processGroup (groups.getD gi default) (bitmaps gi) maximum gi
      start best.1 best.2.1 best.2.2
    let groups1 := groups.set gi r.1
    if r.2.2 = true then (groups1, r.2.1)
    else findBest bitmaps numGroups maximum fuel groups1 (gi + 1) 0 r.2.1

/-- round_down, as ROUNDDOWN in headers/private/kernel/kernel.h:
(a / b) * b. -/
def roundDown (a : Int) (b : Nat) : Int := a / b * b

/-- BlockAllocator::AllocateBlocks: reject maximum = 0; search for the
best run; fail with B_DEVICE_FULL when it is shorter than minimum; clamp
it to maximum or, when minimum > 1, round it down to a multiple of
minimum; allocate it in the winning group; update the used-block count
and return the run (start and length narrowed to uint16 as in the
source). -/
def BlockAllocator.AllocateBlocks (a : BlockAllocator)
    (groupIndex start maximum minimum : Nat) :
    Status × BlockAllocator × Option block_run :=
  if maximum = 0 then (Status.B_BAD_VALUE, a, none)
  else
    let r := findBest a.bitmaps a.fNumGroups maximum (a.fNumGroups + 1)
      a.fGroups groupIndex start (-1, -1, -1)
    let bestGroup := r.2.1
    let bestStart := r.2.2.1
    let bestLength := r.2.2.2
    let a1 := { a with fGroups := r.1 }
    if bestLength < (minimum : Int) then (Status.B_DEVICE_FULL, a1, none)
    else
      let bestLength :=
        if (maximum : Int) < bestLength then (maximum : Int)
        else if 1 < minimum then roundDown bestLength minimum
        else bestLength
      let gi := bestGroup.toNat
      let res := (a1.fGroups.getD gi default).Allocate (a1.bitmaps gi)
        (bestStart.toNat % 65536) bestLength.toNat
      (Status.B_OK,
        { a1 with fGroups := a1.fGroups.set gi res.1,
                  bitmaps := fun j => if j = gi then res.2 else a1.bitmaps j,
                  usedBlocks := a1.usedBlocks + bestLength },
        some { allocation_group := bestGroup, start := bestStart.toNat % 65536,
               length := bestLength.toNat % 65536 })

/-- C9: AllocateBlocks called with maximum = 0 returns an invalid-argument
error immediately, with the allocator state unchanged and no run, before
examining any group. -/
theorem allocateBlocks_maximum_zero (a : BlockAllocator)
    (groupIndex start minimum : Nat) :
    a.AllocateBlocks groupIndex start 0 minimum
      = (Status.B_BAD_VALUE, a, none) := rfl

/-- Group used to refute C2: 512 bits, all free, exact largest-free hint. -/
def c2group : AllocationGroup :=
  { fNumBits := 512, fNumBitmapBlocks := 1, fStart := 1, fFirstFree := 0,
    fFreeBits := 512, fLargestStart := 0, fLargestLength := 512,
    fLargestValid := true }

/-- Allocator used to refute C2: one all-free 512-bit group. -/
def c2alloc : BlockAllocator :=
  { fNumGroups := 1, fGroups := [c2group], bitmaps := fun _ => clearedBitmap,
    usedBlocks := 0, logGroup := 0, logStart := 0, logLength := 0 }

/-- C2 counterexample: requesting maximum = 100, minimum = 64 (a power of
two) from a volume whose best free run is 512 blocks succeeds and returns
a run of length 100, because clamping the best run to maximum skips the
round-down to a multiple of minimum; 100 is not a multiple of 64. -/
theorem allocateBlocks_clamp_skips_rounding :
    (64 : Nat) = 2 ^ 6
    ∧ (c2alloc.AllocateBlocks 0 0 100 64).1 = Status.B_OK
    ∧ (c2alloc.AllocateBlocks 0 0 100 64).2.2 = some ⟨0, 0, 100⟩
    ∧ ¬(64 ∣ 100) := by
  refine ⟨by decide, by decide, by decide, by decide⟩

lemma final_length_dvd (L0 : Int) (maximum minimum : Nat)
    (hmax : maximum < 65536) (hdvd : minimum ∣ maximum) (h0 : maximum ≠ 0)
    (hge : (minimum : Int) ≤ L0) :
    minimum ∣ ((if (maximum : Int) < L0 then (maximum : Int)
       else if 1 < minimum then roundDown L0 minimum else L0).toNat % 65536) := by
  split_ifs with hclamp hmin
  · have hmaxnat : ((maximum : Int)).toNat = maximum := Int.toNat_natCast maximum
    rw [hmaxnat, Nat.mod_eq_of_lt hmax]
    exact hdvd
  · have hmpos : 0 < minimum := by omega
    have hL0 : 0 ≤ L0 := le_trans (Int.ofNat_nonneg minimum) hge
    have hq : 0 ≤ L0 / (minimum : Int) :=
      Int.ediv_nonneg hL0 (by exact_mod_cast Nat.le_of_lt hmpos)
    have hfin : roundDown L0 minimum = (minimum : Int) * (L0 / minimum) := by
      unfold roundDown
      ring
    have hle : roundDown L0 minimum ≤ L0 :=
      Int.ediv_mul_le L0 (by exact_mod_cast hmpos.ne')
    have hnn : 0 ≤ roundDown L0 minimum := by
      rw [hfin]
      positivity
    have hle2 : L0 ≤ (maximum : Int) := not_lt.mp hclamp
    have hlt : (roundDown L0 minimum).toNat < 65536 := by
      calc (roundDown L0 minimum).toNat
          ≤ ((maximum : Int)).toNat := Int.toNat_le_toNat (le_trans hle hle2)
        _ = maximum := Int.toNat_natCast maximum
        _ < 65536 := hmax
    rw [Nat.mod_eq_of_lt hlt]
    refine ⟨(L0 / (minimum : Int)).toNat, ?_⟩
    have hcast : ((roundDown L0 minimum).toNat : Int)
        = (minimum : Int) * ((L0 / (minimum : Int)).toNat : Int) := by
      rw [Int.toNat_of_nonneg hnn, Int.toNat_of_nonneg hq, hfin]
    exact_mod_cast hcast
  · have hnz : minimum ≠ 0 := by
      intro h
      rw [h, Nat.zero_dvd] at hdvd
      exact h0 hdvd
    have hone : minimum = 1 := by omega
    rw [hone]
    exact one_dvd _

/-- C2 amended: the length of a run returned by a successful
AllocateBlocks with granularity minimum is a multiple of minimum whenever
maximum itself is a multiple of minimum; when the best run exceeds
maximum the result is exactly maximum (not rounded down to a multiple of
minimum), so for a maximum that is not a multiple of minimum the
granularity guarantee does not survive clamping. -/
theorem allocateBlocks_granularity (a : BlockAllocator)
    (groupIndex start maximum minimum : Nat)
    (hmax : maximum < 65536) (hdvd : minimum ∣ maximum)
    (hok : (a.AllocateBlocks groupIndex start maximum minimum).1 = Status.B_OK) :
    ∀ run, (a.AllocateBlocks groupIndex start maximum minimum).2.2 = some run →
      minimum ∣ run.length := by
  intro run hrun
  simp only [BlockAllocator.AllocateBlocks] at hok hrun
  by_cases h0 : maximum = 0
  · rw [if_pos h0] at hok
    simp at hok
  · rw [if_neg h0] at hok hrun
    by_cases hfull : (findBest a.bitmaps a.fNumGroups maximum (a.fNumGroups + 1)
        a.fGroups groupIndex start (-1, -1, -1)).2.2.2 < (minimum : Int)
    · rw [if_pos hfull] at hok
      simp at hok
    · rw [if_neg hfull] at hrun
      simp only [Option.some.injEq] at hrun
      subst hrun
      exact final_length_dvd _ maximum minimum hmax hdvd h0 (not_lt.mp hfull)

theorem allocateBlocks_granularity_witness :
    (64 : Nat) < 65536 ∧ (64 : Nat) ∣ 64
    ∧ (c2alloc.AllocateBlocks 0 0 64 64).1 = Status.B_OK
    ∧ ∀ run, (c2alloc.AllocateBlocks 0 0 64 64).2.2 = some run →
        64 ∣ run.length :=
  ⟨by decide, by decide, by decide,
    allocateBlocks_granularity c2alloc 0 0 64 64 (by decide) (by decide)
      (by decide)⟩

/-- The bits [s, s + l) of the bitmap are all unset. -/
def allFreeIn (bm : Bitmap) (s l : Nat) : Prop :=
  ∀ i, i < l → bm (s + i) = false

instance (bm : Bitmap) (s l : Nat) : Decidable (allFreeIn bm s l) :=
  Nat.decidableBallLT l _

/-- Length of the maximal free run ending at position p that stays at or
after position a. -/
def endRun (bm : Bitmap) (a : Nat) : Nat → Nat
  | 0 => 0
  | p + 1 => if a ≤ p ∧ bm p = false then endRun bm a p + 1 else 0

/-- Length of the longest contiguous free run inside [a, p). -/
def maxRunIn (bm : Bitmap) (a : Nat) : Nat → Nat
  | 0 => 0
  | p + 1 => max (maxRunIn bm a p) (endRun bm a (p + 1))

lemma maxRunIn_zero (bm : Bitmap) (a : Nat) : maxRunIn bm a 0 = 0 := rfl

lemma maxRunIn_succ (bm : Bitmap) (a p : Nat) :
    maxRunIn bm a (p + 1) = max (maxRunIn bm a p) (endRun bm a (p + 1)) := rfl

lemma endRun_le (bm : Bitmap) (a p : Nat) : endRun bm a p ≤ p - a := by
  induction p with
  | zero => simp [endRun]
  | succ q ih =>
    unfold endRun
    split_ifs with h
    · omega
    · omega

lemma endRun_succ_free (bm : Bitmap) (a p : Nat) (h1 : a ≤ p)
    (h2 : bm p = false) : endRun bm a (p + 1) = endRun bm a p + 1 := by
  simp [endRun, h1, h2]

lemma endRun_succ_used (bm : Bitmap) (a p : Nat) (h2 : bm p = true) :
    endRun bm a (p + 1) = 0 := by
  simp [endRun, h2]

lemma endRun_zero_of_le (bm : Bitmap) (a p : Nat) (h : p ≤ a) :
    endRun bm a p = 0 := by
  cases p with
  | zero => rfl
  | succ q =>
    unfold endRun
    rw [if_neg]
    intro hcon
    omega

lemma endRun_free (bm : Bitmap) (a p : Nat) :
    ∀ j, p - endRun bm a p ≤ j → j < p → bm j = false := by
  induction p with
  | zero => omega
  | succ q ih =>
    intro j hj1 hj2
    by_cases h : a ≤ q ∧ bm q = false
    · rw [endRun_succ_free bm a q h.1 h.2] at hj1
      have hle := endRun_le bm a q
      by_cases hjq : j < q
      · exact ih j (by omega) hjq
      · have : j = q := by omega
        rw [this]
        exact h.2
    · have h0 : endRun bm a (q + 1) = 0 := by
        unfold endRun
        rw [if_neg h]
      rw [h0] at hj1
      omega

lemma endRun_ge (bm : Bitmap) (a : Nat) :
    ∀ l p, a + l ≤ p → (∀ j, p - l ≤ j → j < p → bm j = false) →
      l ≤ endRun bm a p := by
  intro l
  induction l with
  | zero => omega
  | succ k ih =>
    intro p hp hfree
    cases p with
    | zero => omega
    | succ q =>
      have hfq : bm q = false := hfree q (by omega) (by omega)
      rw [endRun_succ_free bm a q (by omega) hfq]
      have hk : k ≤ endRun bm a q :=
        ih q (by omega) (fun j h1 h2 => hfree j (by omega) (by omega))
      omega

lemma le_maxRunIn (bm : Bitmap) (a s l p : Nat) (has : a ≤ s)
    (hsl : s + l ≤ p) (hfree : allFreeIn bm s l) : l ≤ maxRunIn bm a p := by
  induction p with
  | zero => omega
  | succ q ih =>
    by_cases hq : s + l ≤ q
    · exact le_trans (ih hq) (le_max_left _ _)
    · have hq1 : s + l = q + 1 := by omega
      have : l ≤ endRun bm a (q + 1) := by
        refine endRun_ge bm a l (q + 1) (by omega) ?_
        intro j h1 h2
        have hjs : s ≤ j := by omega
        have := hfree (j - s) (by omega)
        rw [Nat.add_sub_cancel' hjs] at this
        exact this
      exact le_trans this (le_max_right _ _)

lemma maxRunIn_le (bm : Bitmap) (a p : Nat) : maxRunIn bm a p ≤ p - a := by
  induction p with
  | zero => simp [maxRunIn]
  | succ q ih =>
    unfold maxRunIn
    have := endRun_le bm a (q + 1)
    omega

lemma maxRunIn_exists (bm : Bitmap) (a p : Nat) (h : 0 < maxRunIn bm a p) :
    ∃ s, a ≤ s ∧ s + maxRunIn bm a p ≤ p
      ∧ allFreeIn bm s (maxRunIn bm a p) := by
  induction p with
  | zero => simp [maxRunIn] at h
  | succ q ih =>
    rcases le_or_lt (endRun bm a (q + 1)) (maxRunIn bm a q) with hc | hc
    · have hmax : maxRunIn bm a (q + 1) = maxRunIn bm a q := by
        rw [maxRunIn_succ]
        omega
      rw [hmax] at h ⊢
      obtain ⟨s, h1, h2, h3⟩ := ih h
      exact ⟨s, h1, by omega, h3⟩
    · have hmax : maxRunIn bm a (q + 1) = endRun bm a (q + 1) := by
        rw [maxRunIn_succ]
        omega
      rw [hmax]
      have hle := endRun_le bm a (q + 1)
      refine ⟨q + 1 - endRun bm a (q + 1), by omega, by omega, ?_⟩
      intro i hi
      exact endRun_free bm a (q + 1) _ (by omega) (by omega)

lemma maxRunIn_mono_right (bm : Bitmap) (a p q : Nat) (h : p ≤ q) :
    maxRunIn bm a p ≤ maxRunIn bm a q := by
  induction q with
  | zero =>
    have hp0 : p = 0 := by omega
    rw [hp0]
  | succ r ih =>
    by_cases hp : p = r + 1
    · rw [hp]
    · have h2 : maxRunIn bm a p ≤ maxRunIn bm a r := ih (by omega)
      rw [maxRunIn_succ]
      omega

lemma endRun_mono_left (bm : Bitmap) (a b p : Nat) (h : a ≤ b) :
    endRun bm b p ≤ endRun bm a p := by
  induction p with
  | zero => simp [endRun]
  | succ q ih =>
    unfold endRun
    split_ifs with h1 h2
    · omega
    · exact absurd ⟨by omega, h1.2⟩ h2
    · omega
    · omega

lemma maxRunIn_mono_left (bm : Bitmap) (a b p : Nat) (h : a ≤ b) :
    maxRunIn bm b p ≤ maxRunIn bm a p := by
  induction p with
  | zero => simp [maxRunIn]
  | succ q ih =>
    rw [maxRunIn_succ, maxRunIn_succ]
    have := endRun_mono_left bm a b (q + 1) h
    omega

lemma maxRunIn_shift (bm : Bitmap) (a b p : Nat) (h : a ≤ b)
    (hused : ∀ i, i < b → bm i = true) :
    maxRunIn bm a p = maxRunIn bm b p := by
  refine le_antisymm ?_ (maxRunIn_mono_left bm a b p h)
  by_cases h0 : maxRunIn bm a p = 0
  · omega
  · obtain ⟨s, hs, hsl, hfree⟩ := maxRunIn_exists bm a p (by omega)
    have hsb : b ≤ s := by
      by_contra hcon
      have h1 := hused s (by omega)
      have h2 := hfree 0 (by omega)
      rw [Nat.add_zero] at h2
      rw [h1] at h2
      exact Bool.noConfusion h2
    exact le_maxRunIn bm b s _ p hsb hsl hfree

lemma endRun_le_of_used (bm : Bitmap) (a p q : Nat) (hq : p < q)
    (hp : bm p = true) : endRun bm a q ≤ q - p - 1 := by
  induction q with
  | zero => omega
  | succ r ih =>
    by_cases hpr : p = r
    · rw [← hpr, endRun_succ_used bm a p hp]
      omega
    · have h1 : p < r := by omega
      unfold endRun
      split_ifs with h2
      · have := ih h1
        omega
      · omega

lemma maxRunIn_stable (bm : Bitmap) (a p n : Nat) (h1 : p < n)
    (h2 : bm p = true) (h3 : n - p ≤ maxRunIn bm a p) :
    maxRunIn bm a n = maxRunIn bm a p := by
  induction n with
  | zero => omega
  | succ m ih =>
    by_cases hpm : p = m
    · rw [maxRunIn_succ, ← hpm, endRun_succ_used bm a p h2]
      omega
    · have hm : maxRunIn bm a m = maxRunIn bm a p := ih (by omega) (by omega)
      have he : endRun bm a (m + 1) ≤ m - p := by
        have := endRun_le_of_used bm a p (m + 1) (by omega) h2
        omega
      rw [maxRunIn_succ]
      omega

lemma countFree_zero_iff (bm : Bitmap) (n : Nat) :
    countFree bm n = 0 ↔ ∀ i, i < n → bm i = true := by
  unfold countFree
  rw [Finset.card_eq_zero, Finset.filter_eq_empty_iff]
  constructor
  · intro h i hi
    have := h (Finset.mem_range.mpr hi)
    simpa using this
  · intro h i hi
    simp [h i (Finset.mem_range.mp hi)]

lemma maxRunIn_eq_zero_of_used (bm : Bitmap) (a n : Nat)
    (hused : ∀ i, i < n → bm i = true) : maxRunIn bm a n = 0 := by
  by_contra h
  obtain ⟨s, hs, hsl, hfree⟩ := maxRunIn_exists bm a n (Nat.pos_of_ne_zero h)
  have h2 := hfree 0 (Nat.pos_of_ne_zero h)
  rw [Nat.add_zero] at h2
  rw [hused s (by omega)] at h2
  exact Bool.noConfusion h2

lemma maxRunIn_zero_of_le (bm : Bitmap) (a p : Nat) (h : p ≤ a) :
    maxRunIn bm a p = 0 := by
  induction p with
  | zero => rfl
  | succ q ih =>
    rw [maxRunIn_succ, ih (by omega), endRun_zero_of_le bm a (q + 1) h]
    simp

lemma stepFree_currentLength (st : ScanSt) (p : Nat) :
    (stepFree st p).currentLength = st.currentLength + 1 := by
  simp only [stepFree]
  split_ifs <;> rfl

lemma stepFree_currentStart (st : ScanSt) (p : Nat) :
    (stepFree st p).currentStart
      = if st.currentLength = 0 then (p : Int) else st.currentStart := by
  simp only [stepFree]
  split_ifs <;> rfl

lemma stepFree_rest (st : ScanSt) (p : Nat) :
    (stepFree st p).bestGroup = st.bestGroup
    ∧ (stepFree st p).bestStart = st.bestStart
    ∧ (stepFree st p).bestLength = st.bestLength
    ∧ (stepFree st p).groupLargestStart = st.groupLargestStart
    ∧ (stepFree st p).groupLargestLength = st.groupLargestLength := by
  simp only [stepFree]
  split_ifs <;> exact ⟨rfl, rfl, rfl, rfl, rfl⟩

/-- Invariant of the scanGroup loop at position p, for a scan that was
entered at position s0 with incoming best triple B0. -/
structure ScanInv (bm : Bitmap) (n maximum s0 : Nat) (gi : Int)
    (B0 : Int × Int × Int) (p : Nat) (st : ScanSt) : Prop where
  hs0p : s0 ≤ p
  hpn : p ≤ n
  hk : st.currentLength = (endRun bm s0 p : Int)
  hkmax : st.currentLength < (maximum : Int)
  hcs : 0 < st.currentLength → st.currentStart = (p : Int) - st.currentLength
  hbest : max st.bestLength st.currentLength
      = max B0.2.2 ((maxRunIn bm s0 p : Nat) : Int)
  hbestmax : st.bestLength < (maximum : Int)
  hbestmono : B0.2.2 ≤ st.bestLength
  hgL : max st.groupLargestLength st.currentLength
      = ((maxRunIn bm s0 p : Nat) : Int)
  hgLbest : st.groupLargestLength ≤ st.bestLength
  hgLlb : -1 ≤ st.groupLargestLength
  hgLrun : 0 ≤ st.groupLargestLength →
      0 ≤ st.groupLargestStart
      ∧ st.groupLargestStart + st.groupLargestLength ≤ (n : Int)
      ∧ allFreeIn bm st.groupLargestStart.toNat st.groupLargestLength.toNat
  hbestrun : (st.bestGroup = B0.1 ∧ st.bestStart = B0.2.1
        ∧ st.bestLength = B0.2.2)
      ∨ (st.bestGroup = gi ∧ 0 ≤ st.bestStart ∧ 0 ≤ st.bestLength
          ∧ st.bestStart + st.bestLength ≤ (n : Int)
          ∧ allFreeIn bm st.bestStart.toNat st.bestLength.toNat)
  hcsrange : 0 ≤ st.currentStart ∧ st.currentStart ≤ (n : Int)

lemma stepFree_scanInv (bm : Bitmap) (n maximum s0 : Nat) (gi : Int)
    (B0 : Int × Int × Int) (p : Nat) (st : ScanSt)
    (hinv : ScanInv bm n maximum s0 gi B0 p st)
    (hbm : bm p = false) (hpn : p < n)
    (hfm : ¬((maximum : Int) ≤ (stepFree st p).currentLength)) :
    ScanInv bm n maximum s0 gi B0 (p + 1) (stepFree st p) := by
  obtain ⟨hrg, hrs, hrl, hrgs, hrgl⟩ := stepFree_rest st p
  have hend : endRun bm s0 (p + 1) = endRun bm s0 p + 1 :=
    endRun_succ_free bm s0 p hinv.hs0p hbm
  have hmx : maxRunIn bm s0 (p + 1)
      = max (maxRunIn bm s0 p) (endRun bm s0 (p + 1)) := maxRunIn_succ bm s0 p
  have hkc := hinv.hk
  have hbc := hinv.hbest
  have hgc := hinv.hgL
  have hsp := hinv.hs0p
  have hpn2 := hinv.hpn
  have hcr := hinv.hcsrange
  refine ⟨by omega, by omega, ?_, ?_, ?_, ?_, ?_, ?_, ?_, ?_, ?_, ?_, ?_, ?_⟩
  · rw [stepFree_currentLength]
    omega
  · rw [stepFree_currentLength] at hfm ⊢
    omega
  · intro h
    rw [stepFree_currentLength]
    rw [stepFree_currentStart]
    by_cases h0 : st.currentLength = 0
    · rw [if_pos h0, h0]
      push_cast
      ring
    · rw [if_neg h0]
      have := hinv.hcs (by omega)
      omega
  · rw [stepFree_currentLength, hrl]
    omega
  · rw [hrl]
    exact hinv.hbestmax
  · rw [hrl]
    exact hinv.hbestmono
  · rw [stepFree_currentLength, hrgl]
    omega
  · rw [hrgl, hrl]
    exact hinv.hgLbest
  · rw [hrgl]
    exact hinv.hgLlb
  · rw [hrgl, hrgs]
    exact hinv.hgLrun
  · rw [hrg, hrs, hrl]
    exact hinv.hbestrun
  · rw [stepFree_currentStart]
    split_ifs
    · constructor <;> omega
    · exact hcr

lemma stepUsed_eq_zero (st : ScanSt) (gi : Int)
    (h : st.currentLength = 0) : stepUsed st gi = st := by
  simp [stepUsed, h]

lemma scanInv_used_zero (bm : Bitmap) (n maximum s0 : Nat) (gi : Int)
    (B0 : Int × Int × Int) (p : Nat) (st : ScanSt)
    (hinv : ScanInv bm n maximum s0 gi B0 p st)
    (hbm : bm p = true) (hpn : p < n) (hk0 : st.currentLength = 0) :
    ScanInv bm n maximum s0 gi B0 (p + 1) st := by
  have hend : endRun bm s0 (p + 1) = 0 := endRun_succ_used bm s0 p hbm
  have hmx : maxRunIn bm s0 (p + 1)
      = max (maxRunIn bm s0 p) (endRun bm s0 (p + 1)) := maxRunIn_succ bm s0 p
  have hsp := hinv.hs0p
  have hpn2 := hinv.hpn
  have hkc := hinv.hk
  have hbc := hinv.hbest
  have hgc := hinv.hgL
  refine ⟨by omega, by omega, by omega, hinv.hkmax, ?_, by omega,
    hinv.hbestmax, hinv.hbestmono, by omega, hinv.hgLbest, hinv.hgLlb,
    hinv.hgLrun, hinv.hbestrun, hinv.hcsrange⟩
  intro h
  omega

lemma scanInv_used_pos (bm : Bitmap) (n maximum s0 : Nat) (gi : Int)
    (B0 : Int × Int × Int) (p : Nat) (st st2 : ScanSt)
    (hinv : ScanInv bm n maximum s0 gi B0 p st)
    (hbm : bm p = true) (hpn : p < n) (hk0 : st.currentLength ≠ 0)
    (hcl : st2.currentLength = 0)
    (hcases : (st2.bestGroup = st.bestGroup ∧ st2.bestStart = st.bestStart
          ∧ st2.bestLength = st.bestLength
          ∧ st.currentLength ≤ st.bestLength)
        ∨ (st2.bestGroup = gi ∧ st2.bestStart = st.currentStart
          ∧ st2.bestLength = st.currentLength
          ∧ st.bestLength < st.currentLength))
    (hgcases : (st2.groupLargestStart = st.groupLargestStart
          ∧ st2.groupLargestLength = st.groupLargestLength
          ∧ st.currentLength ≤ st.groupLargestLength)
        ∨ (st2.groupLargestStart = st.currentStart
          ∧ st2.groupLargestLength = st.currentLength
          ∧ st.groupLargestLength < st.currentLength))
    (hcs2 : st2.currentStart = st.currentStart) :
    ScanInv bm n maximum s0 gi B0 (p + 1) st2 := by
  have hend : endRun bm s0 (p + 1) = 0 := endRun_succ_used bm s0 p hbm
  have hmx : maxRunIn bm s0 (p + 1)
      = max (maxRunIn bm s0 p) (endRun bm s0 (p + 1)) := maxRunIn_succ bm s0 p
  have hsp := hinv.hs0p
  have hpn2 := hinv.hpn
  have hkc := hinv.hk
  have hbc := hinv.hbest
  have hgc := hinv.hgL
  have hbm2 := hinv.hbestmax
  have hbmono := hinv.hbestmono
  have hgb := hinv.hgLbest
  have hkmax := hinv.hkmax
  have heL := endRun_le bm s0 p
  have hkpos : 1 ≤ st.currentLength := by omega
  have hcsv := hinv.hcs (by omega)
  have hfree : ∀ i, i < endRun bm s0 p →
      bm (p - endRun bm s0 p + i) = false := by
    intro i hi
    exact endRun_free bm s0 p _ (by omega) (by omega)
  have hb2 : st2.bestLength = max st.bestLength st.currentLength := by
    rcases hcases with ⟨_, _, h3, h4⟩ | ⟨_, _, h3, h4⟩ <;> omega
  have hg2 : st2.groupLargestLength
      = max st.groupLargestLength st.currentLength := by
    rcases hgcases with ⟨_, h3, h4⟩ | ⟨_, h3, h4⟩ <;> omega
  have hcr := hinv.hcsrange
  refine ⟨by omega, by omega, by omega, by omega, ?_, by omega, by omega,
    by omega, by omega, by omega, by omega, ?_, ?_, by rw [hcs2]; exact hcr⟩
  · intro h
    omega
  · intro hnn
    rcases hgcases with ⟨h1, h2, h3⟩ | ⟨h1, h2, h3⟩
    · rw [h1, h2]
      exact hinv.hgLrun (by omega)
    · rw [h1, h2, hcsv, hkc]
      refine ⟨by omega, by omega, ?_⟩
      have ht1 : ((p : Int) - ((endRun bm s0 p : Nat) : Int)).toNat
          = p - endRun bm s0 p := by omega
      have ht2 : (((endRun bm s0 p : Nat) : Int)).toNat = endRun bm s0 p := by
        omega
      rw [ht1, ht2]
      intro i hi
      exact hfree i hi
  · rcases hcases with ⟨h1, h2, h3, h4⟩ | ⟨h1, h2, h3, h4⟩
    · rw [h1, h2, h3]
      exact hinv.hbestrun
    · right
      rw [h1, h2, h3, hcsv, hkc]
      refine ⟨rfl, by omega, by omega, by omega, ?_⟩
      have ht1 : ((p : Int) - ((endRun bm s0 p : Nat) : Int)).toNat
          = p - endRun bm s0 p := by omega
      have ht2 : (((endRun bm s0 p : Nat) : Int)).toNat = endRun bm s0 p := by
        omega
      rw [ht1, ht2]
      intro i hi
      exact hfree i hi

lemma stepUsed_scanInv (bm : Bitmap) (n maximum s0 : Nat) (gi : Int)
    (B0 : Int × Int × Int) (p : Nat) (st : ScanSt)
    (hinv : ScanInv bm n maximum s0 gi B0 p st)
    (hbm : bm p = true) (hpn : p < n) :
    ScanInv bm n maximum s0 gi B0 (p + 1) (stepUsed st gi) := by
  by_cases hk0 : st.currentLength = 0
  · rw [stepUsed_eq_zero st gi hk0]
    exact scanInv_used_zero bm n maximum s0 gi B0 p st hinv hbm hpn hk0
  · by_cases hb : st.bestLength < st.currentLength <;>
      by_cases hg : st.groupLargestLength < st.currentLength
    · have hstep : stepUsed st gi = { st with
            bestGroup := gi
            bestStart := st.currentStart
            bestLength := st.currentLength
            groupLargestStart := st.currentStart
            groupLargestLength := st.currentLength
            currentLength := 0 } := by
        simp [stepUsed, hk0, hb, hg]
      refine scanInv_used_pos bm n maximum s0 gi B0 p st _ hinv hbm hpn hk0
        ?_ ?_ ?_ ?_
      · rw [hstep]
      · rw [hstep]
        right
        exact ⟨rfl, rfl, rfl, hb⟩
      · rw [hstep]
        right
        exact ⟨rfl, rfl, hg⟩
      · rw [hstep]
    · have hstep : stepUsed st gi = { st with
            bestGroup := gi
            bestStart := st.currentStart
            bestLength := st.currentLength
            currentLength := 0 } := by
        simp [stepUsed, hk0, hb, hg]
      refine scanInv_used_pos bm n maximum s0 gi B0 p st _ hinv hbm hpn hk0
        ?_ ?_ ?_ ?_
      · rw [hstep]
      · rw [hstep]
        right
        exact ⟨rfl, rfl, rfl, hb⟩
      · rw [hstep]
        left
        exact ⟨rfl, rfl, by omega⟩
      · rw [hstep]
    · have hstep : stepUsed st gi = { st with
            groupLargestStart := st.currentStart
            groupLargestLength := st.currentLength
            currentLength := 0 } := by
        simp [stepUsed, hk0, hb, hg]
      refine scanInv_used_pos bm n maximum s0 gi B0 p st _ hinv hbm hpn hk0
        ?_ ?_ ?_ ?_
      · rw [hstep]
      · rw [hstep]
        left
        exact ⟨rfl, rfl, rfl, by omega⟩
      · rw [hstep]
        right
        exact ⟨rfl, rfl, hg⟩
      · rw [hstep]
    · have hstep : stepUsed st gi = { st with currentLength := 0 } := by
        simp [stepUsed, hk0, hb, hg]
      refine scanInv_used_pos bm n maximum s0 gi B0 p st _ hinv hbm hpn hk0
        ?_ ?_ ?_ ?_
      · rw [hstep]
      · rw [hstep]
        left
        exact ⟨rfl, rfl, rfl, by omega⟩
      · rw [hstep]
        left
        exact ⟨rfl, rfl, by omega⟩
      · rw [hstep]

/-- What holds of the scan state when the scan stopped because a run of at
least (maximum) free bits was found. -/
def FoundMaxOut (bm : Bitmap) (n maximum : Nat) (gi : Int)
    (B0 : Int × Int × Int) (s0 : Nat) (st : ScanSt) : Prop :=
  (maximum : Int) ≤ st.bestLength
  ∧ B0.2.2 ≤ st.bestLength
  ∧ st.bestLength ≤ max B0.2.2 ((maxRunIn bm s0 n : Nat) : Int)
  ∧ st.bestGroup = gi ∧ 0 ≤ st.bestStart ∧ 0 ≤ st.bestLength
  ∧ st.bestStart + st.bestLength ≤ (n : Int)
  ∧ allFreeIn bm st.bestStart.toNat st.bestLength.toNat

/-- What holds of the scan state when the scan skipped the rest of the
group because no longer run can fit there. -/
def SkipOut (bm : Bitmap) (n maximum : Nat) (gi : Int)
    (B0 : Int × Int × Int) (s0 : Nat) (st : ScanSt) : Prop :=
  st.currentLength = 0
  ∧ st.bestLength = max B0.2.2 ((maxRunIn bm s0 n : Nat) : Int)
  ∧ st.bestLength < (maximum : Int)
  ∧ B0.2.2 ≤ st.bestLength
  ∧ st.groupLargestLength = ((maxRunIn bm s0 n : Nat) : Int)
  ∧ st.groupLargestLength ≤ st.bestLength
  ∧ (0 ≤ st.groupLargestLength →
      0 ≤ st.groupLargestStart
      ∧ st.groupLargestStart + st.groupLargestLength ≤ (n : Int)
      ∧ allFreeIn bm st.groupLargestStart.toNat st.groupLargestLength.toNat)
  ∧ ((st.bestGroup = B0.1 ∧ st.bestStart = B0.2.1 ∧ st.bestLength = B0.2.2)
      ∨ (st.bestGroup = gi ∧ 0 ≤ st.bestStart ∧ 0 ≤ st.bestLength
          ∧ st.bestStart + st.bestLength ≤ (n : Int)
          ∧ allFreeIn bm st.bestStart.toNat st.bestLength.toNat))

lemma foundMaxOut_construct (bm : Bitmap) (n maximum s0 : Nat) (gi : Int)
    (B0 : Int × Int × Int) (p : Nat) (st st2 : ScanSt)
    (hinv : ScanInv bm n maximum s0 gi B0 p st)
    (hbm : bm p = false) (hpn : p < n)
    (hfm : (maximum : Int) ≤ (stepFree st p).currentLength)
    (h1 : st2.bestGroup = gi)
    (h2 : st2.bestStart = (stepFree st p).currentStart)
    (h3 : st2.bestLength = (stepFree st p).currentLength) :
    FoundMaxOut bm n maximum gi B0 s0 st2 := by
  have hkc := hinv.hk
  have hsp := hinv.hs0p
  have hpn2 := hinv.hpn
  have heL := endRun_le bm s0 p
  have hbmax := hinv.hbestmax
  have hbmono := hinv.hbestmono
  have hcl := stepFree_currentLength st p
  have hcsv : (stepFree st p).currentStart = (p : Int) - st.currentLength := by
    rw [stepFree_currentStart]
    by_cases h0 : st.currentLength = 0
    · rw [if_pos h0, h0]
      ring
    · rw [if_neg h0]
      exact hinv.hcs (by omega)
  have hend : endRun bm s0 (p + 1) = endRun bm s0 p + 1 :=
    endRun_succ_free bm s0 p hsp hbm
  have hle2 : endRun bm s0 (p + 1) ≤ maxRunIn bm s0 (p + 1) := by
    rw [maxRunIn_succ]
    exact le_max_right _ _
  have hmono : maxRunIn bm s0 (p + 1) ≤ maxRunIn bm s0 n :=
    maxRunIn_mono_right bm s0 (p + 1) n (by omega)
  have hrun : ∀ i, i < endRun bm s0 p + 1 →
      bm (p - endRun bm s0 p + i) = false := by
    intro i hi
    have := endRun_free bm s0 (p + 1) (p - endRun bm s0 p + i)
      (by omega) (by omega)
    exact this
  have hbs : st2.bestStart.toNat = p - endRun bm s0 p := by
    rw [h2, hcsv, hkc]
    omega
  have hbl : st2.bestLength.toNat = endRun bm s0 p + 1 := by
    rw [h3, hcl, hkc]
    omega
  unfold FoundMaxOut
  refine ⟨by omega, by omega, by omega, h1, by omega, by omega, by omega, ?_⟩
  rw [hbs, hbl]
  intro i hi
  exact hrun i hi

lemma skipOut_construct (bm : Bitmap) (n maximum s0 : Nat) (gi : Int)
    (B0 : Int × Int × Int) (p : Nat) (st1 : ScanSt)
    (hinv2 : ScanInv bm n maximum s0 gi B0 (p + 1) st1)
    (hk0 : st1.currentLength = 0)
    (hbm : bm p = true) (hpn : p < n)
    (hskip : (n : Int) - (p : Int) ≤ st1.groupLargestLength) :
    SkipOut bm n maximum gi B0 s0 st1 := by
  have hgc := hinv2.hgL
  have hbc := hinv2.hbest
  have hgb := hinv2.hgLbest
  have hgl1 : 1 ≤ st1.groupLargestLength := by omega
  have hmxp : maxRunIn bm s0 (p + 1) = maxRunIn bm s0 p := by
    rw [maxRunIn_succ, endRun_succ_used bm s0 p hbm]
    simp
  have hstab : maxRunIn bm s0 n = maxRunIn bm s0 p :=
    maxRunIn_stable bm s0 p n hpn hbm (by omega)
  unfold SkipOut
  exact ⟨hk0, by omega, hinv2.hbestmax, hinv2.hbestmono, by omega, hgb,
    hinv2.hgLrun, hinv2.hbestrun⟩

lemma scanGroup_spec (bm : Bitmap) (n maximum : Nat) (gi : Int)
    (B0 : Int × Int × Int) (s0 : Nat) :
    ∀ fuel p st, p + fuel = n → ScanInv bm n maximum s0 gi B0 p st →
      ((scanGroup bm n maximum gi fuel p st).2.1 = ScanExit.endOfGroup →
        (scanGroup bm n maximum gi fuel p st).2.2 = n
        ∧ ScanInv bm n maximum s0 gi B0 n
            (scanGroup bm n maximum gi fuel p st).1)
      ∧ ((scanGroup bm n maximum gi fuel p st).2.1 = ScanExit.foundMaximum →
        (scanGroup bm n maximum gi fuel p st).2.2 ≠ n
        ∧ FoundMaxOut bm n maximum gi B0 s0
            (scanGroup bm n maximum gi fuel p st).1)
      ∧ ((scanGroup bm n maximum gi fuel p st).2.1 = ScanExit.skippedRest →
        (scanGroup bm n maximum gi fuel p st).2.2 ≠ n
        ∧ SkipOut bm n maximum gi B0 s0
            (scanGroup bm n maximum gi fuel p st).1) := by
  intro fuel
  induction fuel with
  | zero =>
    intro p st hpf hinv
    have hpn : p = n := by omega
    subst hpn
    refine ⟨fun _ => ⟨rfl, hinv⟩, fun hcon => ?_, fun hcon => ?_⟩
    · simp [scanGroup] at hcon
    · simp [scanGroup] at hcon
  | succ fuel ih =>
    intro p st hpf hinv
    have hpn : p < n := by omega
    by_cases hbm : bm p = false
    · by_cases hfm : (maximum : Int) ≤ (stepFree st p).currentLength
      · have hres : scanGroup bm n maximum gi (fuel + 1) p st
            = ({ stepFree st p with
                  bestGroup := gi
                  bestStart := (stepFree st p).currentStart
                  bestLength := (stepFree st p).currentLength },
               ScanExit.foundMaximum, p) := by
          simp only [scanGroup]
          rw [if_pos hbm, if_pos hfm]
        rw [hres]
        refine ⟨fun hcon => by simp at hcon, fun _ => ⟨by simp; omega, ?_⟩,
          fun hcon => by simp at hcon⟩
        exact foundMaxOut_construct bm n maximum s0 gi B0 p st _ hinv hbm hpn
          hfm rfl rfl rfl
      · have hres : scanGroup bm n maximum gi (fuel + 1) p st
            = scanGroup bm n maximum gi fuel (p + 1) (stepFree st p) := by
          simp only [scanGroup]
          rw [if_pos hbm, if_neg hfm]
        rw [hres]
        exact ih (p + 1) (stepFree st p) (by omega)
          (stepFree_scanInv bm n maximum s0 gi B0 p st hinv hbm hpn hfm)
    · have hbm2 : bm p = true := by
        revert hbm
        cases bm p <;> simp
      have hbmf : ¬(bm p = false) := by simp [hbm2]
      have hinv2 := stepUsed_scanInv bm n maximum s0 gi B0 p st hinv hbm2 hpn
      by_cases hskip : (n : Int) - (p : Int) ≤ (stepUsed st gi).groupLargestLength
      · have hres : scanGroup bm n maximum gi (fuel + 1) p st
            = (stepUsed st gi, ScanExit.skippedRest, p) := by
          simp only [scanGroup]
          rw [if_neg hbmf, if_pos hskip]
        rw [hres]
        refine ⟨fun hcon => by simp at hcon, fun hcon => by simp at hcon,
          fun _ => ⟨by simp; omega, ?_⟩⟩
        have hk0 : (stepUsed st gi).currentLength = 0 := by
          by_cases h0 : st.currentLength = 0
          · rw [stepUsed_eq_zero st gi h0]
            exact h0
          · have := hinv2.hk
            rw [endRun_succ_used bm s0 p hbm2] at this
            omega
        exact skipOut_construct bm n maximum s0 gi B0 p _ hinv2 hk0 hbm2 hpn
          hskip
      · have hres : scanGroup bm n maximum gi (fuel + 1) p st
            = scanGroup bm n maximum gi fuel (p + 1) (stepUsed st gi) := by
          simp only [scanGroup]
          rw [if_neg hbmf, if_neg hskip]
        rw [hres]
        exact ih (p + 1) (stepUsed st gi) (by omega) hinv2

/-- Exactness of the largest-free hint: when fLargestValid is set, the
hint names an actual free run whose length is the length of the longest
free run of the group. -/
def largestExact (g : AllocationGroup) (bm : Bitmap) : Prop :=
  g.fLargestValid = true →
    0 ≤ g.fLargestStart ∧ 0 ≤ g.fLargestLength
    ∧ g.fLargestStart + g.fLargestLength ≤ (g.fNumBits : Int)
    ∧ allFreeIn bm g.fLargestStart.toNat g.fLargestLength.toNat
    ∧ g.fLargestLength = ((maxRunIn bm 0 g.fNumBits : Nat) : Int)

/-- The semantic invariants tying an allocation group record to its
bitmap region. -/
def GroupInv (g : AllocationGroup) (bm : Bitmap) : Prop :=
  freeBitsInv g bm ∧ firstFreeLowerBound g bm ∧ largestExact g bm

lemma scanTail_end (bm : Bitmap) (n maximum s0 gi : Nat)
    (B0 : Int × Int × Int) (canFind : Bool) (r : ScanSt × ScanExit × Nat)
    (hfb : r.2.2 = n)
    (hinv : ScanInv bm n maximum s0 (gi : Int) B0 n r.1) :
    (scanTail gi n canFind r).bestLength
        = max B0.2.2 ((maxRunIn bm s0 n : Nat) : Int)
    ∧ (scanTail gi n canFind r).bestLength < (maximum : Int)
    ∧ B0.2.2 ≤ (scanTail gi n canFind r).bestLength
    ∧ (((scanTail gi n canFind r).bestGroup = B0.1
          ∧ (scanTail gi n canFind r).bestStart = B0.2.1
          ∧ (scanTail gi n canFind r).bestLength = B0.2.2)
        ∨ ((scanTail gi n canFind r).bestGroup = (gi : Int)
          ∧ 0 ≤ (scanTail gi n canFind r).bestStart
          ∧ 0 ≤ (scanTail gi n canFind r).bestLength
          ∧ (scanTail gi n canFind r).bestStart
              + (scanTail gi n canFind r).bestLength ≤ (n : Int)
          ∧ allFreeIn bm (scanTail gi n canFind r).bestStart.toNat
              (scanTail gi n canFind r).bestLength.toNat))
    ∧ (canFind = true →
        (scanTail gi n canFind r).groupLargestLength
            = ((maxRunIn bm s0 n : Nat) : Int)
        ∧ 0 ≤ (scanTail gi n canFind r).groupLargestStart
        ∧ (scanTail gi n canFind r).groupLargestStart
            + (scanTail gi n canFind r).groupLargestLength ≤ (n : Int)
        ∧ allFreeIn bm (scanTail gi n canFind r).groupLargestStart.toNat
            (scanTail gi n canFind r).groupLargestLength.toNat) := by
  have hkn := hinv.hk
  have hbc := hinv.hbest
  have hgc := hinv.hgL
  have hbmax := hinv.hbestmax
  have hkmax := hinv.hkmax
  have hbmono := hinv.hbestmono
  have hgb := hinv.hgLbest
  have hglb := hinv.hgLlb
  have heL := endRun_le bm s0 n
  have hcr := hinv.hcsrange
  have hkval : 0 ≤ r.1.currentStart
      ∧ r.1.currentStart + r.1.currentLength ≤ (n : Int)
      ∧ allFreeIn bm r.1.currentStart.toNat r.1.currentLength.toNat := by
    by_cases hpos : 0 < r.1.currentLength
    · have hcsv := hinv.hcs hpos
      refine ⟨by omega, by omega, ?_⟩
      have ht1 : r.1.currentStart.toNat = n - endRun bm s0 n := by
        rw [hcsv, hkn]
        omega
      have ht2 : r.1.currentLength.toNat = endRun bm s0 n := by
        rw [hkn]
        omega
      rw [ht1, ht2]
      intro i hi
      exact endRun_free bm s0 n _ (by omega) (by omega)
    · refine ⟨hcr.1, by omega, ?_⟩
      intro i hi
      omega
  by_cases hb : r.1.bestLength < r.1.currentLength
  · by_cases hcf : canFind = true
    · by_cases hg : r.1.groupLargestLength < r.1.currentLength
      · have hT : scanTail gi n canFind r
            = ⟨r.1.currentStart, r.1.currentLength, r.1.currentStart,
               r.1.currentLength, (gi : Int), r.1.currentStart,
               r.1.currentLength⟩ := by
          simp [scanTail, hfb, hb, hcf, hg]
        rw [hT]
        dsimp only
        refine ⟨by omega, by omega, by omega, ?_, ?_⟩
        · right
          exact ⟨rfl, hkval.1, by omega, hkval.2.1, hkval.2.2⟩
        · intro _
          exact ⟨by omega, hkval.1, hkval.2.1, hkval.2.2⟩
      · have hT : scanTail gi n canFind r
            = ⟨r.1.currentStart, r.1.currentLength, r.1.groupLargestStart,
               r.1.groupLargestLength, (gi : Int), r.1.currentStart,
               r.1.currentLength⟩ := by
          simp [scanTail, hfb, hb, hcf, hg]
        rw [hT]
        dsimp only
        refine ⟨by omega, by omega, by omega, ?_, ?_⟩
        · right
          exact ⟨rfl, hkval.1, by omega, hkval.2.1, hkval.2.2⟩
        · intro _
          exact ⟨by omega, (hinv.hgLrun (by omega)).1,
            (hinv.hgLrun (by omega)).2.1, (hinv.hgLrun (by omega)).2.2⟩
    · have hT : scanTail gi n canFind r
          = ⟨r.1.currentStart, r.1.currentLength, r.1.groupLargestStart,
             r.1.groupLargestLength, (gi : Int), r.1.currentStart,
             r.1.currentLength⟩ := by
        simp [scanTail, hfb, hb, hcf]
      rw [hT]
      dsimp only
      refine ⟨by omega, by omega, by omega, ?_, fun h => absurd h hcf⟩
      right
      exact ⟨rfl, hkval.1, by omega, hkval.2.1, hkval.2.2⟩
  · by_cases hcf : canFind = true
    · by_cases hg : r.1.groupLargestLength < r.1.currentLength
      · have hT : scanTail gi n canFind r
            = ⟨r.1.currentStart, r.1.currentLength, r.1.currentStart,
               r.1.currentLength, r.1.bestGroup, r.1.bestStart,
               r.1.bestLength⟩ := by
          simp [scanTail, hfb, hb, hcf, hg]
        rw [hT]
        dsimp only
        refine ⟨by omega, by omega, by omega, ?_, ?_⟩
        · rcases hinv.hbestrun with h | h
          · left
            exact h
          · right
            exact h
        · intro _
          exact ⟨by omega, hkval.1, hkval.2.1, hkval.2.2⟩
      · have hT : scanTail gi n canFind r = r.1 := by
          simp [scanTail, hfb, hb, hcf, hg]
        rw [hT]
        refine ⟨by omega, by omega, by omega, hinv.hbestrun, ?_⟩
        intro _
        exact ⟨by omega, (hinv.hgLrun (by omega)).1,
          (hinv.hgLrun (by omega)).2.1, (hinv.hgLrun (by omega)).2.2⟩
    · have hT : scanTail gi n canFind r = r.1 := by
        simp [scanTail, hfb, hb, hcf]
      rw [hT]
      exact ⟨by omega, by omega, by omega, hinv.hbestrun,
        fun h => absurd h hcf⟩

lemma refreshGroup_inv (g : AllocationGroup) (bm : Bitmap) (canFind : Bool)
    (st : ScanSt) (hinv : GroupInv g bm)
    (hexact : canFind = true →
        st.groupLargestLength = ((maxRunIn bm 0 g.fNumBits : Nat) : Int)
        ∧ 0 ≤ st.groupLargestStart
        ∧ st.groupLargestStart + st.groupLargestLength ≤ (g.fNumBits : Int)
        ∧ allFreeIn bm st.groupLargestStart.toNat st.groupLargestLength.toNat) :
    GroupInv (refreshGroup g canFind st) bm
    ∧ (refreshGroup g canFind st).fNumBits = g.fNumBits
    ∧ (refreshGroup g canFind st).fFreeBits = g.fFreeBits
    ∧ (refreshGroup g canFind st).fFirstFree = g.fFirstFree := by
  unfold refreshGroup
  split_ifs with h
  · obtain ⟨he1, he2, he3, he4⟩ := hexact h.1
    refine ⟨⟨hinv.1, hinv.2.1, ?_⟩, rfl, rfl, rfl⟩
    intro _
    have he0 : 0 ≤ st.groupLargestLength := by omega
    exact ⟨he2, he0, he3, he4, he1⟩
  · exact ⟨hinv, rfl, rfl, rfl⟩

/-- Everything one iteration of the group loop guarantees: the group
invariants are preserved (only the largest-free hint may change), the
best length never decreases, never exceeds the longest free run of the
group (or the incoming best), the break flag is exactly the
best-reached-maximum test, the best triple is either untouched or an
actual free run of the group, and a visit with start offset 0 drives the
best at least up to the longest free run of the group. -/
structure ProcessOut (bm : Bitmap) (maximum gi start : Nat)
    (g : AllocationGroup) (B : Int × Int × Int)
    (r : AllocationGroup × (Int × Int × Int) × Bool) : Prop where
  hginv : GroupInv r.1 bm
  hnum : r.1.fNumBits = g.fNumBits
  hfbits : r.1.fFreeBits = g.fFreeBits
  hff : r.1.fFirstFree = g.fFirstFree
  hmono : B.2.2 ≤ r.2.1.2.2
  hub : r.2.1.2.2 ≤ max B.2.2 ((maxRunIn bm 0 g.fNumBits : Nat) : Int)
  hbreak : r.2.2 = true → (maximum : Int) ≤ r.2.1.2.2
  hnobreak : r.2.2 = false → r.2.1.2.2 < (maximum : Int)
  hvalid : r.2.1 = B
      ∨ (r.2.1.1 = (gi : Int) ∧ 0 ≤ r.2.1.2.1 ∧ 0 ≤ r.2.1.2.2
          ∧ r.2.1.2.1 + r.2.1.2.2 ≤ (g.fNumBits : Int)
          ∧ allFreeIn bm r.2.1.2.1.toNat r.2.1.2.2.toNat)
  hfull2 : start = 0 → 1 ≤ maxRunIn bm 0 g.fNumBits →
      (((maxRunIn bm 0 g.fNumBits : Nat) : Int) ≤ r.2.1.2.2
        ∨ (maximum : Int) ≤ r.2.1.2.2)

lemma processGroup_spec (g : AllocationGroup) (bm : Bitmap)
    (maximum gi start : Nat) (Bg Bs Bl : Int)
    (hinv : GroupInv g bm) (hn : g.fNumBits ≤ 65536)
    (hmax0 : maximum ≠ 0) (hBl : Bl < (maximum : Int)) (hBlge : -1 ≤ Bl) :
    ProcessOut bm maximum gi start g (Bg, Bs, Bl)
      (processGroup g bm maximum gi start Bg Bs Bl) := by
  by_cases hguard : g.fNumBits ≤ start ∨ g.fFreeBits = 0
  · have hr : processGroup g bm maximum gi start Bg Bs Bl
        = (g, (Bg, Bs, Bl), false) := by
      simp only [processGroup]
      rw [if_pos hguard]
    rw [hr]
    refine ⟨hinv, rfl, rfl, rfl, le_refl _, le_max_left _ _,
      fun h => by simp at h, fun _ => hBl, Or.inl rfl, ?_⟩
    intro h0 h1
    rcases hguard with hg1 | hg2
    · have h3 := maxRunIn_le bm 0 g.fNumBits
      exact absurd h1 (by omega)
    · have hcf : countFree bm g.fNumBits = 0 := by
        have h2 : g.fFreeBits = (countFree bm g.fNumBits : Int) := hinv.1
        rw [hg2] at h2
        omega
      have hused := (countFree_zero_iff bm g.fNumBits).mp hcf
      have h3 := maxRunIn_eq_zero_of_used bm 0 g.fNumBits hused
      exact absurd h1 (by omega)
  · push_neg at hguard
    obtain ⟨hstart, hfbne⟩ := hguard
    have hguard2 : ¬(g.fNumBits ≤ start ∨ g.fFreeBits = 0) := by
      push_neg
      exact ⟨by omega, hfbne⟩
    have hcfne : countFree bm g.fNumBits ≠ 0 := by
      intro h
      apply hfbne
      have h1 : g.fFreeBits = (countFree bm g.fNumBits : Int) := hinv.1
      rw [h] at h1
      exact_mod_cast h1
    have hfreebit : ∃ j, j < g.fNumBits ∧ bm j = false := by
      by_contra hcon
      push_neg at hcon
      apply hcfne
      rw [countFree_zero_iff]
      intro i hi
      have h2 := hcon i hi
      revert h2
      cases bm i <;> simp
    obtain ⟨j, hjn, hjf⟩ := hfreebit
    have hffj : g.fFirstFree ≤ (j : Int) := by
      by_contra hcon
      push_neg at hcon
      have h2 := hinv.2.1 j hcon
      rw [h2] at hjf
      exact Bool.noConfusion hjf
    have hS1 : bumpStart g start < g.fNumBits := by
      unfold bumpStart
      split_ifs with hbump
      · have h1 : g.fFirstFree.toNat ≤ j := by omega
        have h2 : g.fFirstFree.toNat % 65536 = g.fFirstFree.toNat :=
          Nat.mod_eq_of_lt (by omega)
        omega
      · exact hstart
    have hSlow : start = 0 → ∀ i, i < bumpStart g start → bm i = true := by
      intro h0 i hi
      unfold bumpStart at hi
      split_ifs at hi with hbump
      · have h1 : g.fFirstFree.toNat ≤ j := by omega
        have h2 : g.fFirstFree.toNat % 65536 = g.fFirstFree.toNat :=
          Nat.mod_eq_of_lt (by omega)
        rw [h2] at hi
        exact hinv.2.1 i (by omega)
      · omega
    have hshift : start = 0 →
        maxRunIn bm (bumpStart g start) g.fNumBits
          = maxRunIn bm 0 g.fNumBits := by
      intro h0
      exact (maxRunIn_shift bm 0 (bumpStart g start) g.fNumBits
        (Nat.zero_le _) (hSlow h0)).symm
    have hmonoS : maxRunIn bm (bumpStart g start) g.fNumBits
        ≤ maxRunIn bm 0 g.fNumBits :=
      maxRunIn_mono_left bm 0 (bumpStart g start) g.fNumBits (Nat.zero_le _)
    by_cases hc1 : g.fLargestValid = true ∧ g.fLargestLength < Bl
    · have hr : processGroup g bm maximum gi start Bg Bs Bl
          = (g, (Bg, Bs, Bl), false) := by
        simp only [processGroup]
        rw [if_neg hguard2, if_pos hc1]
      rw [hr]
      refine ⟨hinv, rfl, rfl, rfl, le_refl _, le_max_left _ _,
        fun h => by simp at h, fun _ => hBl, Or.inl rfl, ?_⟩
      intro h0 h1
      obtain ⟨hls0, hll0, hsum, hfr, hex⟩ := hinv.2.2 hc1.1
      left
      show ((maxRunIn bm 0 g.fNumBits : Nat) : Int) ≤ Bl
      omega
    · by_cases hc2 : g.fLargestValid = true
          ∧ ((bumpStart g start : Nat) : Int) ≤ g.fLargestStart
      · have hBll : Bl ≤ g.fLargestLength := by
          have h2 : ¬(g.fLargestLength < Bl) := fun hh => hc1 ⟨hc2.1, hh⟩
          omega
        have hr : processGroup g bm maximum gi start Bg Bs Bl
            = (g, ((gi : Int), g.fLargestStart, g.fLargestLength),
               decide ((maximum : Int) ≤ g.fLargestLength)) := by
          simp only [processGroup]
          rw [if_neg hguard2, if_neg hc1, if_pos hc2, if_pos hBll]
        rw [hr]
        obtain ⟨hls0, hll0, hsum, hfr, hex⟩ := hinv.2.2 hc2.1
        refine ⟨hinv, rfl, rfl, rfl, hBll, by dsimp only; omega,
          fun h => of_decide_eq_true h,
          fun h => by have h2 := of_decide_eq_false h; dsimp only; omega,
          Or.inr ⟨rfl, hls0, hll0, hsum, hfr⟩,
          fun _ _ => Or.inl (by dsimp only; omega)⟩
      · have hr : processGroup g bm maximum gi start Bg Bs Bl
            = (refreshGroup g
                (decide (bumpStart g start = 0)
                  && decide ((scanGroup bm g.fNumBits maximum (gi : Int)
                      (g.fNumBits - bumpStart g start) (bumpStart g start)
                      ⟨0, 0, -1, -1, Bg, Bs, Bl⟩).2.1 ≠ ScanExit.foundMaximum))
                (scanTail gi g.fNumBits
                  (decide (bumpStart g start = 0)
                    && decide ((scanGroup bm g.fNumBits maximum (gi : Int)
                        (g.fNumBits - bumpStart g start) (bumpStart g start)
                        ⟨0, 0, -1, -1, Bg, Bs, Bl⟩).2.1
                          ≠ ScanExit.foundMaximum))
                  (scanGroup bm g.fNumBits maximum (gi : Int)
                    (g.fNumBits - bumpStart g start) (bumpStart g start)
                    ⟨0, 0, -1, -1, Bg, Bs, Bl⟩)),
               ((scanTail gi g.fNumBits
                  (decide (bumpStart g start = 0)
                    && decide ((scanGroup bm g.fNumBits maximum (gi : Int)
                        (g.fNumBits - bumpStart g start) (bumpStart g start)
                        ⟨0, 0, -1, -1, Bg, Bs, Bl⟩).2.1
                          ≠ ScanExit.foundMaximum))
                  (scanGroup bm g.fNumBits maximum (gi : Int)
                    (g.fNumBits - bumpStart g start) (bumpStart g start)
                    ⟨0, 0, -1, -1, Bg, Bs, Bl⟩)).bestGroup,
                (scanTail gi g.fNumBits
                  (decide (bumpStart g start = 0)
                    && decide ((scanGroup bm g.fNumBits maximum (gi : Int)
                        (g.fNumBits - bumpStart g start) (bumpStart g start)
                        ⟨0, 0, -1, -1, Bg, Bs, Bl⟩).2.1
                          ≠ ScanExit.foundMaximum))
                  (scanGroup bm g.fNumBits maximum (gi : Int)
                    (g.fNumBits - bumpStart g start) (bumpStart g start)
                    ⟨0, 0, -1, -1, Bg, Bs, Bl⟩)).bestStart,
                (scanTail gi g.fNumBits
                  (decide (bumpStart g start = 0)
                    && decide ((scanGroup bm g.fNumBits maximum (gi : Int)
                        (g.fNumBits - bumpStart g start) (bumpStart g start)
                        ⟨0, 0, -1, -1, Bg, Bs, Bl⟩).2.1
                          ≠ ScanExit.foundMaximum))
                  (scanGroup bm g.fNumBits maximum (gi : Int)
                    (g.fNumBits - bumpStart g start) (bumpStart g start)
                    ⟨0, 0, -1, -1, Bg, Bs, Bl⟩)).bestLength),
               decide ((maximum : Int)
                  ≤ (scanTail gi g.fNumBits
                      (decide (bumpStart g start = 0)
                        && decide ((scanGroup bm g.fNumBits maximum (gi : Int)
                            (g.fNumBits - bumpStart g start)
                            (bumpStart g start)
                            ⟨0, 0, -1, -1, Bg, Bs, Bl⟩).2.1
                              ≠ ScanExit.foundMaximum))
                      (scanGroup bm g.fNumBits maximum (gi : Int)
                        (g.fNumBits - bumpStart g start) (bumpStart g start)
                        ⟨0, 0, -1, -1, Bg, Bs, Bl⟩)).bestLength)) := by
          simp only [processGroup]
          rw [if_neg hguard2, if_neg hc1, if_neg hc2]
        rw [hr]
        set S := bumpStart g start with hSdef
        set RR := scanGroup bm g.fNumBits maximum (gi : Int)
          (g.fNumBits - S) S ⟨0, 0, -1, -1, Bg, Bs, Bl⟩ with hRRdef
        set cf := (decide (S = 0)
          && decide (RR.2.1 ≠ ScanExit.foundMaximum)) with hcfdef
        set T := scanTail gi g.fNumBits cf RR with hTdef
        have hinv0 : ScanInv bm g.fNumBits maximum S
            (gi : Int) (Bg, Bs, Bl) S ⟨0, 0, -1, -1, Bg, Bs, Bl⟩ := by
          have he0 : endRun bm S S = 0 := endRun_zero_of_le bm _ _ (le_refl _)
          have hm0 : maxRunIn bm S S = 0 :=
            maxRunIn_zero_of_le bm _ _ (le_refl _)
          refine ⟨le_refl _, by omega, by rw [he0]; rfl, by dsimp; omega,
            fun h => absurd h (by dsimp; omega), by rw [hm0]; dsimp,
            by dsimp; omega, le_refl _, by rw [hm0]; dsimp; omega,
            by dsimp; omega, by dsimp; omega,
            fun h => absurd h (by dsimp; omega), Or.inl ⟨rfl, rfl, rfl⟩,
            ⟨le_refl _, by dsimp; omega⟩⟩
        have hscan := scanGroup_spec bm g.fNumBits maximum (gi : Int)
          (Bg, Bs, Bl) S (g.fNumBits - S) S
          ⟨0, 0, -1, -1, Bg, Bs, Bl⟩ (by omega) hinv0
        rw [← hRRdef] at hscan
        cases hex : RR.2.1 with
        | endOfGroup =>
          obtain ⟨hfbn, hinvN⟩ := hscan.1 hex
          have hTE := scanTail_end bm g.fNumBits maximum S gi
            (Bg, Bs, Bl) cf RR hfbn hinvN
          rw [← hTdef] at hTE
          obtain ⟨hT1, hT2, hT3, hT4, hT5⟩ := hTE
          have hT1b : T.bestLength
              = max Bl ((maxRunIn bm S g.fNumBits : Nat) : Int) := hT1
          have hexact : cf = true →
              T.groupLargestLength = ((maxRunIn bm 0 g.fNumBits : Nat) : Int)
              ∧ 0 ≤ T.groupLargestStart
              ∧ T.groupLargestStart + T.groupLargestLength
                  ≤ (g.fNumBits : Int)
              ∧ allFreeIn bm T.groupLargestStart.toNat
                  T.groupLargestLength.toNat := by
            intro hc
            have hc2 := hc
            rw [hcfdef] at hc2
            simp only [Bool.and_eq_true, decide_eq_true_eq] at hc2
            have hS0 : S = 0 := hc2.1
            have h5 := hT5 hc
            rw [hS0] at h5
            exact h5
          have hGr := refreshGroup_inv g bm cf T hinv hexact
          have hub : T.bestLength
              ≤ max Bl ((maxRunIn bm 0 g.fNumBits : Nat) : Int) := by
            rw [hT1b]
            omega
          have hbrk : decide ((maximum : Int) ≤ T.bestLength) = true →
              (maximum : Int) ≤ T.bestLength := fun h => of_decide_eq_true h
          have hvald : (T.bestGroup, T.bestStart, T.bestLength)
                = ((Bg : Int), Bs, Bl)
              ∨ (T.bestGroup = (gi : Int) ∧ 0 ≤ T.bestStart
                  ∧ 0 ≤ T.bestLength
                  ∧ T.bestStart + T.bestLength ≤ (g.fNumBits : Int)
                  ∧ allFreeIn bm T.bestStart.toNat T.bestLength.toNat) := by
            rcases hT4 with ⟨h1, h2, h3⟩ | h
            · left
              rw [h1, h2, h3]
            · right
              exact h
          have hfull : start = 0 → 1 ≤ maxRunIn bm 0 g.fNumBits →
              (((maxRunIn bm 0 g.fNumBits : Nat) : Int) ≤ T.bestLength
                ∨ (maximum : Int) ≤ T.bestLength) := by
            intro h0 _
            left
            have hs := hshift h0
            rw [hT1b]
            omega
          exact ⟨hGr.1, hGr.2.1, hGr.2.2.1, hGr.2.2.2, hT3, hub, hbrk,
            fun _ => hT2, hvald, hfull⟩
        | foundMaximum =>
          obtain ⟨hfbn, hFM⟩ := hscan.2.1 hex
          have hTeq : T = RR.1 := by
            rw [hTdef]
            simp only [scanTail]
            rw [if_neg hfbn]
          have hcff : cf = false := by
            rw [hcfdef, hex]
            simp
          obtain ⟨hm1, hm2, hm3, hm4, hm5, hm6, hm7, hm8⟩ := hFM
          rw [← hTeq] at hm1 hm2 hm3 hm4 hm5 hm6 hm7 hm8
          have hm3b : T.bestLength
              ≤ max Bl ((maxRunIn bm S g.fNumBits : Nat) : Int) := hm3
          have hexact : cf = true →
              T.groupLargestLength = ((maxRunIn bm 0 g.fNumBits : Nat) : Int)
              ∧ 0 ≤ T.groupLargestStart
              ∧ T.groupLargestStart + T.groupLargestLength
                  ≤ (g.fNumBits : Int)
              ∧ allFreeIn bm T.groupLargestStart.toNat
                  T.groupLargestLength.toNat := by
            intro hc
            rw [hcff] at hc
            exact absurd hc (by simp)
          have hGr := refreshGroup_inv g bm cf T hinv hexact
          have hub : T.bestLength
              ≤ max Bl ((maxRunIn bm 0 g.fNumBits : Nat) : Int) := by
            omega
          exact ⟨hGr.1, hGr.2.1, hGr.2.2.1, hGr.2.2.2, hm2, hub,
            fun h => of_decide_eq_true h,
            fun h => absurd hm1 (of_decide_eq_false h),
            Or.inr ⟨hm4, hm5, hm6, hm7, hm8⟩,
            fun _ _ => Or.inr hm1⟩
        | skippedRest =>
          obtain ⟨hfbn, hSK⟩ := hscan.2.2 hex
          have hTeq : T = RR.1 := by
            rw [hTdef]
            simp only [scanTail]
            rw [if_neg hfbn]
          obtain ⟨hs1, hs2, hs3, hs4, hs5, hs6, hs7, hs8⟩ := hSK
          rw [← hTeq] at hs1 hs2 hs3 hs4 hs5 hs6 hs7 hs8
          have hs2b : T.bestLength
              = max Bl ((maxRunIn bm S g.fNumBits : Nat) : Int) := hs2
          have hexact : cf = true →
              T.groupLargestLength = ((maxRunIn bm 0 g.fNumBits : Nat) : Int)
              ∧ 0 ≤ T.groupLargestStart
              ∧ T.groupLargestStart + T.groupLargestLength
                  ≤ (g.fNumBits : Int)
              ∧ allFreeIn bm T.groupLargestStart.toNat
                  T.groupLargestLength.toNat := by
            intro hc
            have hc2 := hc
            rw [hcfdef] at hc2
            simp only [Bool.and_eq_true, decide_eq_true_eq] at hc2
            have hS0 : S = 0 := hc2.1
            have hgl0 : 0 ≤ T.groupLargestLength := by
              rw [hs5]
              omega
            obtain ⟨h71, h72, h73⟩ := hs7 hgl0
            rw [hS0] at hs5
            exact ⟨hs5, h71, h72, h73⟩
          have hGr := refreshGroup_inv g bm cf T hinv hexact
          have hub : T.bestLength
              ≤ max Bl ((maxRunIn bm 0 g.fNumBits : Nat) : Int) := by
            rw [hs2b]
            omega
          have hvald : (T.bestGroup, T.bestStart, T.bestLength)
                = ((Bg : Int), Bs, Bl)
              ∨ (T.bestGroup = (gi : Int) ∧ 0 ≤ T.bestStart
                  ∧ 0 ≤ T.bestLength
                  ∧ T.bestStart + T.bestLength ≤ (g.fNumBits : Int)
                  ∧ allFreeIn bm T.bestStart.toNat T.bestLength.toNat) := by
            rcases hs8 with ⟨h1, h2, h3⟩ | h
            · left
              rw [h1, h2, h3]
            · right
              exact h
          have hfull : start = 0 → 1 ≤ maxRunIn bm 0 g.fNumBits →
              (((maxRunIn bm 0 g.fNumBits : Nat) : Int) ≤ T.bestLength
                ∨ (maximum : Int) ≤ T.bestLength) := by
            intro h0 _
            left
            have hs := hshift h0
            rw [hs2b]
            omega
          exact ⟨hGr.1, hGr.2.1, hGr.2.2.1, hGr.2.2.2, hs4, hub,
            fun h => of_decide_eq_true h,
            fun _ => hs3, hvald, hfull⟩

lemma getD_set_ne (l : List AllocationGroup) (i k : Nat) (x : AllocationGroup)
    (h : k ≠ i) : (l.set i x).getD k default = l.getD k default := by
  simp [List.getD_eq_getElem?_getD, List.getElem?_set_ne (fun hh => h hh.symm)]

lemma getD_set_self (l : List AllocationGroup) (i : Nat) (x : AllocationGroup)
    (h : i < l.length) : (l.set i x).getD i default = x := by
  simp [List.getD_eq_getElem?_getD, List.getElem?_set_self, h]

lemma roundRobin_hits (n g0 k : Nat) (hn : 0 < n) (hg : g0 < n) (hk : k < n) :
    ∃ i, 1 ≤ i ∧ i ≤ n ∧ (g0 + i) % n = k := by
  by_cases h : g0 < k
  · refine ⟨k - g0, by omega, by omega, ?_⟩
    have h2 : g0 + (k - g0) = k := by omega
    rw [h2]
    exact Nat.mod_eq_of_lt hk
  · refine ⟨n - g0 + k, by omega, by omega, ?_⟩
    have h2 : g0 + (n - g0 + k) = k + n := by omega
    rw [h2, Nat.add_mod_right]
    exact Nat.mod_eq_of_lt hk

/-- Everything the group loop guarantees about its final best triple: it
never loses the incoming best, never exceeds the per-group bound L on the
longest free run, either keeps the incoming best untouched or names a
real free run of one of the groups, and every group visited with start
offset 0 (every slot but possibly the first) pushes the best up to its
longest free run unless the loop already reached maximum. -/
structure FindOut (bitmaps : Nat → Bitmap) (numGroups maximum L : Nat)
    (groups : List AllocationGroup) (groupIndex start fuel : Nat)
    (B : Int × Int × Int)
    (r : List AllocationGroup × (Int × Int × Int)) : Prop where
  hmono : B.2.2 ≤ r.2.2.2
  hub : r.2.2.2 ≤ max B.2.2 (L : Int)
  hvalid : r.2 = B
      ∨ ∃ k, k < numGroups ∧ r.2.1 = (k : Int) ∧ 0 ≤ r.2.2.1 ∧ 0 ≤ r.2.2.2
          ∧ r.2.2.1 + r.2.2.2 ≤ ((groups.getD k default).fNumBits : Int)
          ∧ allFreeIn (bitmaps k) r.2.2.1.toNat r.2.2.2.toNat
  hcover : ∀ i, i < fuel → (1 ≤ i ∨ start = 0) →
      (maxRunIn (bitmaps ((groupIndex + i) % numGroups)) 0
          ((groups.getD ((groupIndex + i) % numGroups) default).fNumBits) = 0
        ∨ ((maxRunIn (bitmaps ((groupIndex + i) % numGroups)) 0
            ((groups.getD ((groupIndex + i) % numGroups) default).fNumBits)
              : Nat) : Int) ≤ r.2.2.2
        ∨ (maximum : Int) ≤ r.2.2.2)

lemma findBest_spec (bitmaps : Nat → Bitmap) (numGroups maximum L : Nat)
    (hng : 0 < numGroups) (hmax0 : maximum ≠ 0) :
    ∀ (fuel : Nat) (groups : List AllocationGroup) (groupIndex start : Nat)
      (B : Int × Int × Int),
      groups.length = numGroups →
      (∀ k, k < numGroups → GroupInv (groups.getD k default) (bitmaps k)) →
      (∀ k, k < numGroups → (groups.getD k default).fNumBits ≤ 65536) →
      (∀ k, k < numGroups →
        maxRunIn (bitmaps k) 0 ((groups.getD k default).fNumBits) ≤ L) →
      -1 ≤ B.2.2 → B.2.2 < (maximum : Int) →
      FindOut bitmaps numGroups maximum L groups groupIndex start fuel B
        (findBest bitmaps numGroups maximum fuel groups groupIndex start B) := by
  intro fuel
  induction fuel with
  | zero =>
    intro groups groupIndex start B hlen hinv hsz hL hBlb hBub
    refine ⟨le_refl _, le_max_left _ _, Or.inl rfl, ?_⟩
    intro i hi _
    exact absurd hi (by omega)
  | succ fuel ih =>
    intro groups groupIndex start B hlen hinv hsz hL hBlb hBub
    have hgi : groupIndex % numGroups < numGroups := Nat.mod_lt groupIndex hng
    have hPO := processGroup_spec
      (groups.getD (groupIndex % numGroups) default)
      (bitmaps (groupIndex % numGroups)) maximum (groupIndex % numGroups)
      start B.1 B.2.1 B.2.2 (hinv _ hgi) (hsz _ hgi) hmax0 hBub hBlb
    set gi := groupIndex % numGroups with hgidef
    set r0 := processGroup (groups.getD gi default) (bitmaps gi) maximum gi
      start B.1 B.2.1 B.2.2 with hr0def
    have hr : findBest bitmaps numGroups maximum (fuel + 1) groups
          groupIndex start B
        = if r0.2.2 = true then (groups.set gi r0.1, r0.2.1)
          else findBest bitmaps numGroups maximum fuel (groups.set gi r0.1)
            (gi + 1) 0 r0.2.1 := by
      rw [hr0def, hgidef]
      simp only [findBest]
    have hmono0 : B.2.2 ≤ r0.2.1.2.2 := hPO.hmono
    have hub0 : r0.2.1.2.2 ≤ max B.2.2
        ((maxRunIn (bitmaps gi) 0
          ((groups.getD gi default).fNumBits) : Nat) : Int) := hPO.hub
    have hLgi := hL gi hgi
    rw [hr]
    by_cases hbr : r0.2.2 = true
    · rw [if_pos hbr]
      have hb3 : (maximum : Int) ≤ r0.2.1.2.2 := hPO.hbreak hbr
      have h2 : r0.2.1.2.2 ≤ max B.2.2 (L : Int) := by omega
      have h3 : r0.2.1 = B
          ∨ ∃ k, k < numGroups ∧ r0.2.1.1 = (k : Int) ∧ 0 ≤ r0.2.1.2.1
              ∧ 0 ≤ r0.2.1.2.2
              ∧ r0.2.1.2.1 + r0.2.1.2.2
                  ≤ ((groups.getD k default).fNumBits : Int)
              ∧ allFreeIn (bitmaps k) r0.2.1.2.1.toNat r0.2.1.2.2.toNat := by
        rcases hPO.hvalid with hv | ⟨hv1, hv2, hv3, hv4, hv5⟩
        · left
          exact hv
        · right
          exact ⟨gi, hgi, hv1, hv2, hv3, hv4, hv5⟩
      exact ⟨hmono0, h2, h3, fun i _ _ => Or.inr (Or.inr hb3)⟩
    · rw [if_neg hbr]
      have hbf : r0.2.2 = false := by
        revert hbr
        cases r0.2.2 <;> simp
      have hlen1 : (groups.set gi r0.1).length = numGroups := by
        rw [List.length_set]
        exact hlen
      have hget : ∀ k, (groups.set gi r0.1).getD k default
          = if k = gi then r0.1 else groups.getD k default := by
        intro k
        split_ifs with hk
        · subst hk
          exact getD_set_self groups gi r0.1 (by omega)
        · exact getD_set_ne groups gi k r0.1 hk
      have hnum := hPO.hnum
      have hinv1 : ∀ k, k < numGroups →
          GroupInv ((groups.set gi r0.1).getD k default) (bitmaps k) := by
        intro k hk
        rw [hget k]
        split_ifs with hkgi
        · subst hkgi
          exact hPO.hginv
        · exact hinv k hk
      have hsz1 : ∀ k, k < numGroups →
          ((groups.set gi r0.1).getD k default).fNumBits ≤ 65536 := by
        intro k hk
        rw [hget k]
        split_ifs with hkgi
        · subst hkgi
          rw [hnum]
          exact hsz gi hk
        · exact hsz k hk
      have hL1 : ∀ k, k < numGroups → maxRunIn (bitmaps k) 0
          (((groups.set gi r0.1).getD k default).fNumBits) ≤ L := by
        intro k hk
        rw [hget k]
        split_ifs with hkgi
        · subst hkgi
          rw [hnum]
          exact hL gi hk
        · exact hL k hk
      have hBlb1 : -1 ≤ r0.2.1.2.2 := by omega
      have hBub1 : r0.2.1.2.2 < (maximum : Int) := hPO.hnobreak hbf
      have hIH := ih (groups.set gi r0.1) (gi + 1) 0 r0.2.1 hlen1 hinv1 hsz1
        hL1 hBlb1 hBub1
      set FB := findBest bitmaps numGroups maximum fuel (groups.set gi r0.1)
        (gi + 1) 0 r0.2.1 with hFBdef
      obtain ⟨ih1, ih2, ih3, ih4⟩ := hIH
      have h1 : B.2.2 ≤ FB.2.2.2 := le_trans hmono0 ih1
      have h2 : FB.2.2.2 ≤ max B.2.2 (L : Int) := by omega
      have h3 : FB.2 = B
          ∨ ∃ k, k < numGroups ∧ FB.2.1 = (k : Int) ∧ 0 ≤ FB.2.2.1
              ∧ 0 ≤ FB.2.2.2
              ∧ FB.2.2.1 + FB.2.2.2
                  ≤ ((groups.getD k default).fNumBits : Int)
              ∧ allFreeIn (bitmaps k) FB.2.2.1.toNat FB.2.2.2.toNat := by
        rcases ih3 with heq | ⟨k, hk, hk1, hk2, hk3, hk4, hk5⟩
        · rcases hPO.hvalid with hv | ⟨hv1, hv2, hv3, hv4, hv5⟩
          · left
            rw [heq]
            exact hv
          · right
            exact ⟨gi, hgi, by rw [heq]; exact hv1, by rw [heq]; exact hv2,
              by rw [heq]; exact hv3, by rw [heq]; exact hv4,
              by rw [heq]; exact hv5⟩
        · right
          rw [hget k] at hk4
          split_ifs at hk4 with hkgi
          · subst hkgi
            rw [hnum] at hk4
            exact ⟨gi, hk, hk1, hk2, hk3, hk4, hk5⟩
          · exact ⟨k, hk, hk1, hk2, hk3, hk4, hk5⟩
      have h4 : ∀ i, i < fuel + 1 → (1 ≤ i ∨ start = 0) →
          (maxRunIn (bitmaps ((groupIndex + i) % numGroups)) 0
              ((groups.getD ((groupIndex + i) % numGroups) default).fNumBits)
                = 0
            ∨ ((maxRunIn (bitmaps ((groupIndex + i) % numGroups)) 0
                ((groups.getD ((groupIndex + i) % numGroups) default).fNumBits)
                  : Nat) : Int) ≤ FB.2.2.2
            ∨ (maximum : Int) ≤ FB.2.2.2) := by
        intro i hi hst
        by_cases hi0 : i = 0
        · subst hi0
          have hst0 : start = 0 := by
            rcases hst with h | h
            · omega
            · exact h
          have hidx : (groupIndex + 0) % numGroups = gi := by
            rw [Nat.add_zero, hgidef]
          rw [hidx]
          by_cases hz : maxRunIn (bitmaps gi) 0
              ((groups.getD gi default).fNumBits) = 0
          · left
            exact hz
          · rcases hPO.hfull2 hst0 (by omega) with h | h
            · right
              left
              omega
            · right
              right
              omega
        · have h5 := ih4 (i - 1) (by omega) (Or.inr rfl)
          have hidx : (gi + 1 + (i - 1)) % numGroups
              = (groupIndex + i) % numGroups := by
            have h6 : gi + 1 + (i - 1) = gi + i := by omega
            rw [h6, hgidef, Nat.mod_add_mod]
          rw [hidx] at h5
          rw [hget ((groupIndex + i) % numGroups)] at h5
          split_ifs at h5 with hkg
          · rw [hkg] at h5
            rw [hnum] at h5
            rw [hkg]
            exact h5
          · exact h5
      exact ⟨h1, h2, h3, h4⟩

lemma allocateBlocks_status (a : BlockAllocator)
    (groupIndex start maximum minimum : Nat) (hm : maximum ≠ 0) :
    (a.AllocateBlocks groupIndex start maximum minimum).1
      = if (findBest a.bitmaps a.fNumGroups maximum (a.fNumGroups + 1)
            a.fGroups groupIndex start (-1, -1, -1)).2.2.2 < (minimum : Int)
        then Status.B_DEVICE_FULL else Status.B_OK := by
  simp only [BlockAllocator.AllocateBlocks]
  rw [if_neg hm]
  split_ifs <;> rfl

lemma allocateBlocks_run (a : BlockAllocator)
    (groupIndex start maximum minimum : Nat) (hm : maximum ≠ 0)
    (hok : ¬((findBest a.bitmaps a.fNumGroups maximum (a.fNumGroups + 1)
        a.fGroups groupIndex start (-1, -1, -1)).2.2.2 < (minimum : Int))) :
    (a.AllocateBlocks groupIndex start maximum minimum).2.2
      = some { allocation_group := (findBest a.bitmaps a.fNumGroups maximum
                  (a.fNumGroups + 1) a.fGroups groupIndex start
                  (-1, -1, -1)).2.1,
               start := (findBest a.bitmaps a.fNumGroups maximum
                  (a.fNumGroups + 1) a.fGroups groupIndex start
                  (-1, -1, -1)).2.2.1.toNat % 65536,
               length := (if (maximum : Int)
                      < (findBest a.bitmaps a.fNumGroups maximum
                          (a.fNumGroups + 1) a.fGroups groupIndex start
                          (-1, -1, -1)).2.2.2
                   then (maximum : Int)
                   else if 1 < minimum
                   then roundDown (findBest a.bitmaps a.fNumGroups maximum
                      (a.fNumGroups + 1) a.fGroups groupIndex start
                      (-1, -1, -1)).2.2.2 minimum
                   else (findBest a.bitmaps a.fNumGroups maximum
                      (a.fNumGroups + 1) a.fGroups groupIndex start
                      (-1, -1, -1)).2.2.2).toNat % 65536 } := by
  simp only [BlockAllocator.AllocateBlocks]
  rw [if_neg hm, if_neg hok]

/-- C4: with 1 ≤ minimum ≤ maximum (maximum a uint16 value) and L the
length of the longest contiguous free run anywhere on the volume,
AllocateBlocks fails with B_DEVICE_FULL exactly when L < minimum; and
when minimum = 1 and 1 ≤ L < maximum, it succeeds and the returned run
has length exactly L. -/
theorem allocateBlocks_device_full_iff (a : BlockAllocator)
    (groupIndex start maximum minimum L : Nat)
    (hlen : a.fGroups.length = a.fNumGroups)
    (hng : 0 < a.fNumGroups)
    (hginv : ∀ k, k < a.fNumGroups →
        GroupInv (a.fGroups.getD k default) (a.bitmaps k))
    (hsz : ∀ k, k < a.fNumGroups →
        (a.fGroups.getD k default).fNumBits ≤ 65536)
    (hmin : 1 ≤ minimum) (hminmax : minimum ≤ maximum)
    (hm16 : maximum ≤ 65536)
    (hLub : ∀ k, k < a.fNumGroups →
        maxRunIn (a.bitmaps k) 0 ((a.fGroups.getD k default).fNumBits) ≤ L)
    (hLwit : ∃ k, k < a.fNumGroups ∧
        L ≤ maxRunIn (a.bitmaps k) 0 ((a.fGroups.getD k default).fNumBits)) :
    ((a.AllocateBlocks groupIndex start maximum minimum).1
        = Status.B_DEVICE_FULL ↔ L < minimum)
    ∧ (minimum = 1 → 1 ≤ L → L < maximum →
        (a.AllocateBlocks groupIndex start maximum minimum).1 = Status.B_OK
        ∧ ∃ run, (a.AllocateBlocks groupIndex start maximum minimum).2.2
              = some run
            ∧ run.length = L) := by
  have hm0 : maximum ≠ 0 := by omega
  have hFO := findBest_spec a.bitmaps a.fNumGroups maximum L hng hm0
    (a.fNumGroups + 1) a.fGroups groupIndex start (-1, -1, -1) hlen hginv hsz
    hLub (le_refl _) (by show (-1 : Int) < (maximum : Int); omega)
  set F := findBest a.bitmaps a.fNumGroups maximum (a.fNumGroups + 1)
    a.fGroups groupIndex start (-1, -1, -1) with hFdef
  obtain ⟨hmono, hub, hvalid, hcover⟩ := hFO
  have hub2 : F.2.2.2 ≤ max (-1 : Int) (L : Int) := hub
  have hmono2 : (-1 : Int) ≤ F.2.2.2 := hmono
  obtain ⟨kw, hkw, hkL⟩ := hLwit
  have hLeq : maxRunIn (a.bitmaps kw) 0
      ((a.fGroups.getD kw default).fNumBits) = L :=
    le_antisymm (hLub kw hkw) hkL
  have hcov : L = 0 ∨ (L : Int) ≤ F.2.2.2 ∨ (maximum : Int) ≤ F.2.2.2 := by
    obtain ⟨i, hi1, hi2, hieq⟩ := roundRobin_hits a.fNumGroups
      (groupIndex % a.fNumGroups) kw hng (Nat.mod_lt groupIndex hng) hkw
    have hidx : (groupIndex + i) % a.fNumGroups = kw := by
      conv_lhs => rw [← Nat.mod_add_mod]
      exact hieq
    have h4 := hcover i (by omega) (Or.inl hi1)
    rw [hidx, hLeq] at h4
    exact h4
  have hstat := allocateBlocks_status a groupIndex start maximum minimum hm0
  rw [← hFdef] at hstat
  constructor
  · constructor
    · intro hdf
      rw [hstat] at hdf
      by_contra hLm
      push_neg at hLm
      split_ifs at hdf with hlt
      rcases hcov with h | h | h
      · omega
      · omega
      · omega
    · intro hLm
      rw [hstat, if_pos (by omega)]
  · intro h1 hL1 hLmax
    have hFeq : F.2.2.2 = (L : Int) := by
      rcases hcov with h | h | h
      · omega
      · omega
      · omega
    have hok : ¬(F.2.2.2 < (minimum : Int)) := by omega
    have hrun := allocateBlocks_run a groupIndex start maximum minimum hm0
      (by rw [← hFdef]; exact hok)
    rw [← hFdef] at hrun
    refine ⟨by rw [hstat, if_neg hok], ⟨_, hrun, ?_⟩⟩
    show (if (maximum : Int) < F.2.2.2 then (maximum : Int)
        else if 1 < minimum then roundDown F.2.2.2 minimum
        else F.2.2.2).toNat % 65536 = L
    rw [if_neg (by omega), if_neg (by omega), hFeq, Int.toNat_natCast]
    exact Nat.mod_eq_of_lt (by omega)

/-- Bitmap used for the C4 witness: 8 bits, used at 0, 4, 6, 7; the
longest free run is [1, 4) of length 3. -/
def c4bitmap : Bitmap := fun i => decide (i = 0 ∨ i = 4 ∨ 6 ≤ i)

/-- Group record of the C4 witness volume: 8 bits, 4 of them free, no
valid largest-free hint. -/
def c4group : AllocationGroup :=
  { fNumBits := 8, fNumBitmapBlocks := 1, fStart := 0, fFirstFree := 0,
    fFreeBits := 4, fLargestStart := 0, fLargestLength := 0,
    fLargestValid := false }

/-- One-group allocator for the C4 witness. -/
def c4alloc : BlockAllocator :=
  { fNumGroups := 1, fGroups := [c4group], bitmaps := fun _ => c4bitmap,
    usedBlocks := 0, logGroup := 0, logStart := 0, logLength := 0 }

theorem allocateBlocks_device_full_iff_witness :
    ((c4alloc.AllocateBlocks 0 0 8 1).1 = Status.B_DEVICE_FULL ↔ 3 < 1)
    ∧ (1 = 1 → 1 ≤ 3 → 3 < 8 →
        (c4alloc.AllocateBlocks 0 0 8 1).1 = Status.B_OK
        ∧ ∃ run, (c4alloc.AllocateBlocks 0 0 8 1).2.2 = some run
            ∧ run.length = 3) :=
  allocateBlocks_device_full_iff c4alloc 0 0 8 1 3
    (by decide) (by decide)
    (fun k hk => by
      have hn1 : c4alloc.fNumGroups = 1 := rfl
      rw [hn1] at hk
      have hk0 : k = 0 := by omega
      subst hk0
      refine ⟨by decide, ?_, ?_⟩
      · intro i hi
        exact absurd hi (by show ¬((i : Int) < (0 : Int)); omega)
      · intro hv
        exact absurd hv (by decide))
    (fun k hk => by
      have hn1 : c4alloc.fNumGroups = 1 := rfl
      rw [hn1] at hk
      have hk0 : k = 0 := by omega
      subst hk0
      decide)
    (by decide) (by decide) (by decide)
    (fun k hk => by
      have hn1 : c4alloc.fNumGroups = 1 := rfl
      rw [hn1] at hk
      have hk0 : k = 0 := by omega
      subst hk0
      decide)
    ⟨0, by decide, by decide⟩

/-- C5: the group loop visits groups round-robin from the caller hint for
at most fNumGroups + 1 iterations with the start offset reset to 0 after
the first, so a completely full hint group cannot block an otherwise
satisfiable allocation: if the hint group has no free bit and some other
group holds a free run of at least minimum blocks, AllocateBlocks
succeeds and the returned run lives in a group other than the hint. -/
theorem allocateBlocks_skips_full_hint_group (a : BlockAllocator)
    (groupIndex start maximum minimum : Nat)
    (hlen : a.fGroups.length = a.fNumGroups)
    (hng : 0 < a.fNumGroups)
    (hginv : ∀ k, k < a.fNumGroups →
        GroupInv (a.fGroups.getD k default) (a.bitmaps k))
    (hsz : ∀ k, k < a.fNumGroups →
        (a.fGroups.getD k default).fNumBits ≤ 65536)
    (hmin : 1 ≤ minimum) (hminmax : minimum ≤ maximum)
    (hhint : groupIndex < a.fNumGroups)
    (hfull : (a.fGroups.getD groupIndex default).fFreeBits = 0)
    (hother : ∃ j, j < a.fNumGroups ∧ j ≠ groupIndex ∧
        minimum ≤ maxRunIn (a.bitmaps j) 0
          ((a.fGroups.getD j default).fNumBits)) :
    (a.AllocateBlocks groupIndex start maximum minimum).1 = Status.B_OK
    ∧ ∃ run, (a.AllocateBlocks groupIndex start maximum minimum).2.2
          = some run
        ∧ run.allocation_group ≠ (groupIndex : Int) := by
  have hm0 : maximum ≠ 0 := by omega
  have hLub : ∀ k, k < a.fNumGroups →
      maxRunIn (a.bitmaps k) 0 ((a.fGroups.getD k default).fNumBits)
        ≤ 65536 := by
    intro k hk
    have h1 := maxRunIn_le (a.bitmaps k) 0
      ((a.fGroups.getD k default).fNumBits)
    have h2 := hsz k hk
    omega
  have hFO := findBest_spec a.bitmaps a.fNumGroups maximum 65536 hng hm0
    (a.fNumGroups + 1) a.fGroups groupIndex start (-1, -1, -1) hlen hginv hsz
    hLub (le_refl _) (by show (-1 : Int) < (maximum : Int); omega)
  set F := findBest a.bitmaps a.fNumGroups maximum (a.fNumGroups + 1)
    a.fGroups groupIndex start (-1, -1, -1) with hFdef
  obtain ⟨hmono, hub, hvalid, hcover⟩ := hFO
  obtain ⟨j, hj, hjne, hjrun⟩ := hother
  have hcovj : maxRunIn (a.bitmaps j) 0
        ((a.fGroups.getD j default).fNumBits) = 0
      ∨ ((maxRunIn (a.bitmaps j) 0
          ((a.fGroups.getD j default).fNumBits) : Nat) : Int) ≤ F.2.2.2
      ∨ (maximum : Int) ≤ F.2.2.2 := by
    obtain ⟨i, hi1, hi2, hieq⟩ := roundRobin_hits a.fNumGroups
      (groupIndex % a.fNumGroups) j hng (Nat.mod_lt groupIndex hng) hj
    have hidx : (groupIndex + i) % a.fNumGroups = j := by
      conv_lhs => rw [← Nat.mod_add_mod]
      exact hieq
    have h4 := hcover i (by omega) (Or.inl hi1)
    rw [hidx] at h4
    exact h4
  have hsucc : (minimum : Int) ≤ F.2.2.2 := by
    rcases hcovj with h | h | h
    · omega
    · omega
    · omega
  have hok : ¬(F.2.2.2 < (minimum : Int)) := by omega
  have hstat := allocateBlocks_status a groupIndex start maximum minimum hm0
  rw [← hFdef] at hstat
  have hrun := allocateBlocks_run a groupIndex start maximum minimum hm0
    (by rw [← hFdef]; exact hok)
  rw [← hFdef] at hrun
  have hgne : F.2.1 ≠ (groupIndex : Int) := by
    rcases hvalid with heq | ⟨k, hk, hk1, hk2, hk3, hk4, hk5⟩
    · have hm1 : F.2.2.2 = (-1 : Int) := by
        rw [heq]
      exact absurd hsucc (by omega)
    · by_cases hkg : k = groupIndex
      · rw [hkg] at hk1 hk4 hk5
        have hfb : (a.fGroups.getD groupIndex default).fFreeBits
            = (countFree (a.bitmaps groupIndex)
                ((a.fGroups.getD groupIndex default).fNumBits) : Int) :=
          (hginv groupIndex hhint).1
        rw [hfull] at hfb
        have hcf0 : countFree (a.bitmaps groupIndex)
            ((a.fGroups.getD groupIndex default).fNumBits) = 0 := by
          exact_mod_cast hfb.symm
        have hused := (countFree_zero_iff (a.bitmaps groupIndex)
          ((a.fGroups.getD groupIndex default).fNumBits)).mp hcf0
        have hl1 : 0 < F.2.2.2.toNat := by omega
        have hbit := hk5 0 hl1
        have hlt : F.2.2.1.toNat + 0
            < (a.fGroups.getD groupIndex default).fNumBits := by omega
        exact absurd (hused _ hlt) (by rw [hbit]; simp)
      · rw [hk1]
        intro hcon
        apply hkg
        exact_mod_cast hcon
  refine ⟨by rw [hstat, if_neg hok], ⟨_, hrun, ?_⟩⟩
  show F.2.1 ≠ (groupIndex : Int)
  exact hgne

/-- Group record of the full hint group in the C5 witness volume. -/
def c5group0 : AllocationGroup :=
  { fNumBits := 8, fNumBitmapBlocks := 1, fStart := 0, fFirstFree := 0,
    fFreeBits := 0, fLargestStart := 0, fLargestLength := 0,
    fLargestValid := false }

/-- Group record of the free second group in the C5 witness volume. -/
def c5group1 : AllocationGroup :=
  { fNumBits := 8, fNumBitmapBlocks := 1, fStart := 1, fFirstFree := 0,
    fFreeBits := 8, fLargestStart := 0, fLargestLength := 0,
    fLargestValid := false }

/-- Two-group allocator for the C5 witness: group 0 entirely full,
group 1 entirely free. -/
def c5alloc : BlockAllocator :=
  { fNumGroups := 2, fGroups := [c5group0, c5group1],
    bitmaps := fun g => if g = 0 then (fun _ => true) else (fun _ => false),
    usedBlocks := 0, logGroup := 0, logStart := 0, logLength := 0 }

theorem allocateBlocks_skips_full_hint_group_witness :
    (c5alloc.AllocateBlocks 0 0 4 1).1 = Status.B_OK
    ∧ ∃ run, (c5alloc.AllocateBlocks 0 0 4 1).2.2 = some run
        ∧ run.allocation_group ≠ ((0 : Nat) : Int) :=
  allocateBlocks_skips_full_hint_group c5alloc 0 0 4 1
    (by decide) (by decide)
    (fun k hk => by
      have hn2 : c5alloc.fNumGroups = 2 := rfl
      rw [hn2] at hk
      have hk01 : k = 0 ∨ k = 1 := by omega
      rcases hk01 with h | h <;> subst h <;>
        exact ⟨by decide,
          fun i hi => absurd hi (by show ¬((i : Int) < (0 : Int)); omega),
          fun hv => absurd hv (by decide)⟩)
    (fun k hk => by
      have hn2 : c5alloc.fNumGroups = 2 := rfl
      rw [hn2] at hk
      have hk01 : k = 0 ∨ k = 1 := by omega
      rcases hk01 with h | h <;> subst h <;> decide)
    (by decide) (by decide) (by decide) (by decide)
    ⟨1, by decide, by decide, by decide⟩
